import Mathlib

/-!
Verification of the geometry resolution and transform-composition engine of
the python-nexus-utilities repository, against its natural-language
specification.

The Python modules are shallowly embedded below:
* `src/nexusutils.py`          : vector utilities (`normalise`, `isclose`,
  `find_rotation_axis_and_angle_between_vectors`,
  `rotation_matrix_from_axis_and_angle`);
* `src/detectorplotter.py`     : `get_transformations` / `do_transformations`
  (the depends_on chain collector and applier);
* `src/nexusutils/nexusbuilder.py` : `__add_detector_transformations`
  (emission of the translation/rotation transform chain);
* `src/nexusutils/nexustooff.py`   : pixel-shape replication
  (`replicate_if_pixel_geometry`, `accumulate_geometry_in_prealloc_arrays`);
* `src/nexusutils/readwriteoff.py` : the OFF writer and parser;
* `src/idfparser.py`           : offset composition (`__calculate_new_offsets`,
  `__collate_detector_info`), id-list expansion (`__get_id_list`) and
  detector resolution (`get_detectors`).

Real-valued code is embedded over `ℝ` (float rounding is outside the scope of
the embedding); text-level code (the OFF format) is embedded over `ℚ` and
`String` so that it stays executable.
-/

open Classical

/-- A 3-component numpy vector (`np.array([x, y, z])`) over the reals. -/
@[ext]
structure Vec3 where
  x : ℝ
  y : ℝ
  z : ℝ

namespace Vec3

noncomputable instance : Zero Vec3 :=
  ⟨⟨0, 0, 0⟩⟩

noncomputable instance : Add Vec3 :=
  ⟨fun a b => ⟨a.x + b.x, a.y + b.y, a.z + b.z⟩⟩

noncomputable instance : Sub Vec3 :=
  ⟨fun a b => ⟨a.x - b.x, a.y - b.y, a.z - b.z⟩⟩

noncomputable instance : Neg Vec3 :=
  ⟨fun a => ⟨-a.x, -a.y, -a.z⟩⟩

/-- Scalar multiplication `c * v` (numpy broadcasting of a scalar). -/
noncomputable def smul (c : ℝ) (v : Vec3) : Vec3 :=
  ⟨c * v.x, c * v.y, c * v.z⟩

/-- Componentwise division by a scalar, `v / m` in numpy. -/
noncomputable def divScalar (v : Vec3) (m : ℝ) : Vec3 :=
  ⟨v.x / m, v.y / m, v.z / m⟩

/-- `np.dot` for 3-vectors. -/
noncomputable def dot (a b : Vec3) : ℝ :=
  a.x * b.x + a.y * b.y + a.z * b.z

/-- `np.cross` for 3-vectors. -/
noncomputable def cross (a b : Vec3) : Vec3 :=
  ⟨a.y * b.z - a.z * b.y, a.z * b.x - a.x * b.z, a.x * b.y - a.y * b.x⟩

/-- `np.sqrt(np.sum(np.square(v)))`, the euclidean magnitude. -/
noncomputable def magnitude (v : Vec3) : ℝ :=
  Real.sqrt (v.x ^ 2 + v.y ^ 2 + v.z ^ 2)

theorem zero_def : (0 : Vec3) = ⟨0, 0, 0⟩ := rfl

@[simp] theorem zero_x : (0 : Vec3).x = 0 := rfl

@[simp] theorem zero_y : (0 : Vec3).y = 0 := rfl

@[simp] theorem zero_z : (0 : Vec3).z = 0 := rfl

theorem add_def (a b : Vec3) : a + b = ⟨a.x + b.x, a.y + b.y, a.z + b.z⟩ := rfl

theorem sub_def (a b : Vec3) : a - b = ⟨a.x - b.x, a.y - b.y, a.z - b.z⟩ := rfl

theorem neg_def (a : Vec3) : -a = ⟨-a.x, -a.y, -a.z⟩ := rfl

theorem magnitude_nonneg (v : Vec3) : 0 ≤ magnitude v :=
  Real.sqrt_nonneg _

theorem magnitude_eq_zero_iff (v : Vec3) : magnitude v = 0 ↔ v = 0 := by
  unfold magnitude
  rw [Real.sqrt_eq_zero']
  constructor
  · intro h
    have hx : v.x ^ 2 + v.y ^ 2 + v.z ^ 2 = 0 := by nlinarith [sq_nonneg v.x, sq_nonneg v.y, sq_nonneg v.z]
    have hvx : v.x = 0 := by nlinarith [sq_nonneg v.x, sq_nonneg v.y, sq_nonneg v.z]
    have hvy : v.y = 0 := by nlinarith [sq_nonneg v.x, sq_nonneg v.y, sq_nonneg v.z]
    have hvz : v.z = 0 := by nlinarith [sq_nonneg v.x, sq_nonneg v.y, sq_nonneg v.z]
    exact Vec3.ext hvx hvy hvz
  · intro h
    subst h
    norm_num

theorem magnitude_sq (v : Vec3) : magnitude v ^ 2 = v.x ^ 2 + v.y ^ 2 + v.z ^ 2 := by
  unfold magnitude
  rw [Real.sq_sqrt]
  positivity

end Vec3

/-! ## `src/nexusutils.py` -/

/-- `nexusutils.isclose(a, b, rel_tol, abs_tol)`:
`abs(a-b) <= max(rel_tol * max(abs(a), abs(b)), abs_tol)`. -/
noncomputable def isclose (a b rel_tol abs_tol : ℝ) : Prop :=
  |a - b| ≤ max (rel_tol * max |a| |b|) abs_tol

/-- `np.allclose(a, b)` for 3-vectors with numpy's default tolerances
`rtol=1e-05`, `atol=1e-08`: componentwise `|a - b| <= atol + rtol * |b|`. -/
noncomputable def np_allclose (a b : Vec3) : Prop :=
  |a.x - b.x| ≤ 1 / 100000000 + (1 / 100000) * |b.x| ∧
  |a.y - b.y| ≤ 1 / 100000000 + (1 / 100000) * |b.y| ∧
  |a.z - b.z| ≤ 1 / 100000000 + (1 / 100000) * |b.z|

/-- `nexusutils.normalise(input_vector)`: returns `(unit_vector, magnitude)`;
if the magnitude is zero it returns `([0,0,0], 0.0)` instead of dividing by
zero. -/
noncomputable def normalise (input_vector : Vec3) : Vec3 × ℝ :=
  let magnitude := Vec3.magnitude input_vector
  if magnitude = 0 then (⟨0, 0, 0⟩, 0)
  else (input_vector.divScalar magnitude, magnitude)

/-- Result of `nexusutils.find_rotation_axis_and_angle_between_vectors`:
either the `(None, None)` "no rotation" sentinel, the raised
`NotImplementedError` (the specification's `DegenerateRotationError`), or a
computed `(axis, angle)` pair. -/
inductive RotationResult where
  | noRotation
  | degenerate
  | axisAngle (axis : Vec3) (angle : ℝ)
deriving Inhabited

/-- `nexusutils.find_rotation_axis_and_angle_between_vectors(vector_a, vector_b)`.
`np.allclose(unit_a, unit_b)` guards the sentinel branch; the
`isclose(mag_cross, 0.0)` guard (with `rel_tol=1e-09`, `abs_tol=0.0`) raises
`NotImplementedError` ("No unique solution for rotation axis"); otherwise
`axis = cross_prod / mag_cross` and
`angle = -1.0 * arccos(dot(a,b) / (mag_a * mag_b))`. -/
noncomputable def find_rotation_axis_and_angle_between_vectors (vector_a vector_b : Vec3) :
    RotationResult :=
  let unit_a := (normalise vector_a).1
  let mag_a := (normalise vector_a).2
  let unit_b := (normalise vector_b).1
  let mag_b := (normalise vector_b).2
  if np_allclose unit_a unit_b then
    RotationResult.noRotation
  else
    let cross_prod := Vec3.cross vector_a vector_b
    let mag_cross := (normalise cross_prod).2
    if isclose mag_cross 0 (1 / 1000000000) 0 then
      RotationResult.degenerate
    else
      RotationResult.axisAngle (cross_prod.divScalar mag_cross)
        (-(1 : ℝ) * Real.arccos (Vec3.dot vector_a vector_b / (mag_a * mag_b)))

/-- `nexusutils.rotation_matrix_from_axis_and_angle(axis, theta)`: the
Rodrigues rotation matrix, row for row as written in the source. -/
noncomputable def rotation_matrix_from_axis_and_angle (axis : Vec3) (theta : ℝ) :
    Matrix (Fin 3) (Fin 3) ℝ :=
  let cos_t := Real.cos theta
  let sin_t := Real.sin theta
  !![cos_t + axis.x ^ 2 * (1 - cos_t),
     axis.x * axis.y * (1 - cos_t) - axis.z * sin_t,
     axis.x * axis.z * (1 - cos_t) + axis.y * sin_t;
     axis.y * axis.x * (1 - cos_t) + axis.z * sin_t,
     cos_t + axis.y ^ 2 * (1 - cos_t),
     axis.y * axis.z * (1 - cos_t) - axis.x * sin_t;
     axis.z * axis.x * (1 - cos_t) - axis.y * sin_t,
     axis.z * axis.y * (1 - cos_t) + axis.x * sin_t,
     cos_t + axis.z ^ 2 * (1 - cos_t)]

/-! ## `src/detectorplotter.py` -/

/-- A homogeneous 4x4 transformation matrix (`np.matrix`). -/
abbrev Mat4 := Matrix (Fin 4) (Fin 4) ℝ

/-- The attributes and scalar value of one stored NXtransformations dataset,
as read back by `detectorplotter.get_transformation`: `transformation_type`,
`vector`, the dataset's scalar value, the optional `offset` attribute and the
`depends_on` attribute (a path, or `"."` for the terminal sentinel). -/
structure NexusTransform where
  transformation_type : String
  vector : Vec3
  value : ℝ
  offset : Option Vec3
  depends_on : String

/-- The matrix that `detectorplotter.get_transformation` appends for one
transform dataset: a homogeneous translation by `vector * value + offset`
for a translation, and for a rotation the Rodrigues matrix of
`(vector, deg2rad(value))` with `offset` in the last column.  An
unrecognised `transformation_type` appends nothing (`none`). -/
noncomputable def get_transformation_matrix (t : NexusTransform) : Option Mat4 :=
  let offset := t.offset.getD 0
  if t.transformation_type = "translation" then
    let vector := Vec3.smul t.value t.vector
    some !![1, 0, 0, vector.x + offset.x;
            0, 1, 0, vector.y + offset.y;
            0, 0, 1, vector.z + offset.z;
            0, 0, 0, 1]
  else if t.transformation_type = "rotation" then
    let rm := rotation_matrix_from_axis_and_angle t.vector (t.value * (Real.pi / 180))
    some !![rm 0 0, rm 0 1, rm 0 2, offset.x;
            rm 1 0, rm 1 1, rm 1 2, offset.y;
            rm 2 0, rm 2 1, rm 2 2, offset.z;
            0, 0, 0, 1]
  else none

/-- `detectorplotter.get_transformations(depends_on, transformations, source_file)`:
follows the `depends_on` chain until the terminal sentinel `"."`, appending
each dataset's matrix in discovery order.  The NeXus file is modelled as an
association list from dataset paths to transform datasets; `none` as the
starting reference models an absent `depends_on` dataset (the function then
collects nothing); a failed path lookup models the `AttributeError` the
Python raises on `source_file.get` returning `None`.  The fuel argument
bounds the recursion depth (the Python recursion is unbounded; any fuel
larger than the chain length is enough, see the chain theorems). -/
noncomputable def get_transformations :
    ℕ → List (String × NexusTransform) → Option String → Option (List Mat4)
  | _, _, none => some []
  | 0, _, some _ => none
  | fuel + 1, source_file, some transform_path =>
    if transform_path = "." then some []
    else
      match source_file.lookup transform_path with
      | none => none
      | some t =>
        match get_transformations fuel source_file (some t.depends_on) with
        | none => none
        | some rest =>
          match get_transformation_matrix t with
          | some m => some (m :: rest)
          | none => some rest

/-- `detectorplotter.do_transformations(transformations, vertices)`: applies
each matrix of the list in turn to the (homogeneous, column) vertex by left
multiplication.  The Python updates every column of the vertex matrix the
same way, so one column is modelled. -/
noncomputable def do_transformations (transformations : List Mat4) (vertex : Fin 4 → ℝ) :
    Fin 4 → ℝ :=
  transformations.foldl (fun v transformation => transformation.mulVec v) vertex

/-- A well-formed stored `depends_on` chain: starting reference `path`, the
listed `(path, dataset)` pairs are found in the file in this order, each
dataset's `depends_on` names the next pair, and the last dataset's
`depends_on` is the terminal sentinel `"."`. -/
def chain_wf (source_file : List (String × NexusTransform)) :
    String → List (String × NexusTransform) → Prop
  | path, [] => path = "."
  | path, (p, t) :: rest =>
    path = p ∧ p ≠ "." ∧ source_file.lookup p = some t ∧
      chain_wf source_file t.depends_on rest

/-! ## `src/nexusutils/nexusbuilder.py`, `__add_detector_transformations` -/

/-- A detector orientation as resolved by the IDF parser: rotation `axis`
and `angle` in degrees. -/
structure IdfOrientation where
  axis : Vec3
  angle : ℝ

/-- One dataset written by `NexusBuilder.add_transformation`: its full path,
and the `transformation_type`, `units`, `vector`, optional `offset` and
`depends_on` attributes next to the scalar dataset value. -/
structure TransformDataset where
  path : String
  transformation_type : String
  value : ℝ
  units : String
  vector : Vec3
  offset : Option Vec3
  depends_on : String

/-- `NexusBuilder.__add_detector_transformations(detector, detector_group)`:
with no location nothing is written (and no `depends_on` dataset is
emitted); otherwise a `translation` dataset named `location` is written
first, with magnitude/unit-vector from `normalise(location)` and the default
terminal `depends_on = "."`; if an orientation is present a `rotation`
dataset named `orientation` is written second, depending on the translation,
and the detector's `depends_on` dataset points at the rotation; otherwise
the detector's `depends_on` points at the translation.  The returned pair is
(written transform datasets in emission order, the detector's `depends_on`
path). -/
noncomputable def add_detector_transformations (length_units : String) (detector_path : String)
    (location : Option Vec3) (orientation : Option IdfOrientation) :
    List TransformDataset × Option String :=
  match location with
  | none => ([], none)
  | some loc =>
    let translate_unit_vector := (normalise loc).1
    let translate_magnitude := (normalise loc).2
    let location_transformation : TransformDataset :=
      { path := detector_path ++ "/transformations/location"
        transformation_type := "translation"
        value := translate_magnitude
        units := length_units
        vector := translate_unit_vector
        offset := none
        depends_on := "." }
    match orientation with
    | some o =>
      let orientation_transformation : TransformDataset :=
        { path := detector_path ++ "/transformations/orientation"
          transformation_type := "rotation"
          value := o.angle
          units := "degrees"
          vector := o.axis
          offset := none
          depends_on := location_transformation.path }
      ([location_transformation, orientation_transformation],
        some orientation_transformation.path)
    | none => ([location_transformation], some location_transformation.path)

/-- View a written transform dataset as the NeXus-file entry the plotter
reads back. -/
def TransformDataset.toEntry (t : TransformDataset) : String × NexusTransform :=
  (t.path, ⟨t.transformation_type, t.vector, t.value, t.offset, t.depends_on⟩)

/-! ## `src/nexusutils/nexustooff.py`, pixel-shape replication -/

/-- The `(vertices, faces, winding_order)` triple of a mesh.  `faces` holds
start offsets into `winding_order`; `winding_order` holds vertex indices. -/
structure GeomData where
  vertices : List Vec3
  faces : List ℕ
  winding_order : List ℕ

/-- The `next_indices` dictionary of
`nexustooff.accumulate_geometry_in_prealloc_arrays`: the insertion cursors
into the preallocated vertex, face and winding-order arrays. -/
structure NextIndices where
  vertex : ℕ
  face : ℕ
  winding_order : ℕ

/-- `nexustooff.accumulate_geometry_in_prealloc_arrays`: inserts
`new_faces + next_indices['winding_order']`,
`new_winding_order + next_indices['vertex']` and `new_vertices` at the
cursors, then advances each cursor by the inserted length.  Because every
insertion happens exactly at the current cursor and the cursors advance by
the inserted lengths, writing into the preallocated numpy arrays is modelled
as appending to the filled prefixes. -/
noncomputable def accumulate_geometry_in_prealloc_arrays (g : GeomData) (next_indices : NextIndices)
    (new_vertices : List Vec3) (new_faces new_winding_order : List ℕ) :
    GeomData × NextIndices :=
  (⟨g.vertices ++ new_vertices,
    g.faces ++ new_faces.map (· + next_indices.winding_order),
    g.winding_order ++ new_winding_order.map (· + next_indices.vertex)⟩,
   ⟨next_indices.vertex + new_vertices.length,
    next_indices.face + new_faces.length,
    next_indices.winding_order + new_winding_order.length⟩)

/-- The replication loop of `nexustooff.replicate_if_pixel_geometry` (the
function's surrounding group-name test selects whether the loop runs; the
three parallel `x/y/z_pixel_offset` datasets are modelled as one list of
offset points, the specification's `per_pixel_offsets`): for each pixel
offset, the pixel vertices translated by that offset together with the pixel
face and winding-order lists are accumulated into the preallocated arrays
with `accumulate_geometry_in_prealloc_arrays`. -/
noncomputable def replicate_pixel_shape (pixel : GeomData) (offsets : List Vec3) : GeomData :=
  (offsets.foldl
    (fun (acc : GeomData × NextIndices) off =>
      accumulate_geometry_in_prealloc_arrays acc.1 acc.2
        (pixel.vertices.map (fun v => v + off)) pixel.faces pixel.winding_order)
    (⟨[], [], []⟩, ⟨0, 0, 0⟩)).1

/-! ## `src/nexusutils/readwriteoff.py` -/

/-- Accumulating tokenizer behind `py_split`: gathers maximal runs of
non-whitespace characters. -/
def split_tokens : List Char → List Char → List String
  | [], acc => if acc.isEmpty then [] else [String.mk acc.reverse]
  | c :: rest, acc =>
    if c.isWhitespace then
      if acc.isEmpty then split_tokens rest []
      else String.mk acc.reverse :: split_tokens rest []
    else split_tokens rest (c :: acc)

/-- Python `str.split()`: split on whitespace runs, dropping empty pieces. -/
def py_split (s : String) : List String :=
  split_tokens s.data []

/-- Split a character list at each `'.'`, keeping empty pieces
(`"a.b".split(".") == ["a", "b"]`, `".".split(".") == ["", ""]`). -/
def split_dot : List Char → List Char → List String
  | [], acc => [String.mk acc.reverse]
  | c :: rest, acc =>
    if c = '.' then String.mk acc.reverse :: split_dot rest []
    else split_dot rest (c :: acc)

/-- Decimal digit accumulator behind `parse_nat`. -/
def digits_to_nat : List Char → ℕ → Option ℕ
  | [], acc => some acc
  | c :: rest, acc =>
    if c.isDigit then digits_to_nat rest (acc * 10 + (c.toNat - 48)) else none

/-- A non-empty all-digit decimal numeral, as a natural number. -/
def parse_nat (s : String) : Option ℕ :=
  match s.data with
  | [] => none
  | l => digits_to_nat l 0

/-- Python `int(token)` for an optionally-signed decimal string. -/
def parse_int (s : String) : Option ℤ :=
  match s.data with
  | '-' :: rest =>
    (match rest with
     | [] => none
     | l => (digits_to_nat l 0).map (fun n => -(n : ℤ)))
  | _ => (parse_nat s).map (fun n => (n : ℤ))

/-- Python `float(token)` restricted to plain decimal notation
(`digits[.digits]` with optional sign), which is all the OFF writer emits;
exponent notation is outside the model.  The value is represented exactly as
a rational. -/
def parse_float (s : String) : Option ℚ :=
  let sb : ℤ × List Char :=
    match s.data with
    | '-' :: rest => (-1, rest)
    | l => (1, l)
  match split_dot sb.2 [] with
  | [ipart] => (parse_nat ipart).map (fun n => mkRat (sb.1 * n) 1)
  | [ipart, fpart] =>
    if ipart = "" ∧ fpart = "" then none
    else
      let iOk := ipart = "" ∨ (parse_nat ipart).isSome
      let fOk := fpart = "" ∨ (parse_nat fpart).isSome
      if iOk ∧ fOk then
        let i := (parse_nat ipart).getD 0
        let f := (parse_nat fpart).getD 0
        some (mkRat (sb.1 * (i * 10 ^ fpart.length + f)) (10 ^ fpart.length))
      else none
  | _ => none

/-- Zero-pad a decimal numeral string on the left to 6 characters. -/
def pad6 (s : String) : String :=
  String.mk (List.replicate (6 - s.length) '0') ++ s

/-- numpy's `fmt='%f'` float formatting with the default 6 decimal places,
on exact rationals: round `|q| * 10^6` to the nearest integer (half up; ties
cannot arise for the exactly representable values this development
evaluates) and print integer and fractional digits. -/
def fmt_float (q : ℚ) : String :=
  let n : ℕ := q.num.natAbs
  let scaled : ℕ := (2 * n * 1000000 + q.den) / (2 * q.den)
  let ip := scaled / 1000000
  let fp := scaled % 1000000
  (if q.num < 0 then "-" else "") ++ toString ip ++ "." ++ pad6 (toString fp)

/-- The face line written by `readwriteoff.write_off_face`: the number of
vertex indices in the face followed by the indices, space separated. -/
def write_off_face (verts_in_face : List ℕ) : String :=
  String.intercalate " " ((toString verts_in_face.length) :: verts_in_face.map toString)

/-- The face lines written by the face loop of `readwriteoff.write_off_file`:
for each entry of `faces[1:]` the winding-order slice from the previous
index, and finally the slice from the last index to the end (the last face's
end is implicit). -/
def write_off_file_faces (faces : List ℕ) (winding_order : List ℕ) : List String :=
  let looped := (faces.drop 1).foldl
    (fun (acc : List String × ℕ) face =>
      (acc.1 ++ [write_off_face ((winding_order.drop acc.2).take (face - acc.2))], face))
    ([], 0)
  looped.1 ++ [write_off_face (winding_order.drop looped.2)]

/-- `readwriteoff.write_off_file(filename, vertices, faces, winding_order)`
modelled at the line level (each list entry is one line of the file, without
its trailing newline): the `OFF` header, a comment, the
`NVertices NFaces NEdges` line with `number_of_faces = len(faces) - 1` and
`number_of_edges = 0`, a comment, the `%f`-formatted vertex lines
(`np.savetxt`), a comment, and the face lines. -/
def write_off_file (vertices : List (ℚ × ℚ × ℚ)) (faces : List ℕ) (winding_order : List ℕ) :
    List String :=
  let number_of_vertices : ℤ := vertices.length
  let number_of_faces : ℤ := (faces.length : ℤ) - 1
  let number_of_edges : ℤ := 0
  ["OFF",
   "# NVertices NFaces NEdges",
   toString number_of_vertices ++ " " ++ toString number_of_faces ++ " " ++
     toString number_of_edges,
   "# Vertices"] ++
  vertices.map (fun v => fmt_float v.1 ++ " " ++ fmt_float v.2.1 ++ " " ++ fmt_float v.2.2) ++
  ["# Faces"] ++
  write_off_file_faces faces winding_order

/-- The comment/blank test of `readwriteoff.parse_off_file`:
`line[0] == '#' or line == '\n'` (lines are modelled without their trailing
newline, so the blank line is the empty string). -/
def off_line_skipped (line : String) : Bool :=
  line.front == '#' || line == ""

/-- The comment-skipping loop of `readwriteoff.parse_off_file`: first
non-comment, non-blank line and the remaining lines; `none` models running
off the end of the file. -/
def skip_off_comments : List String → Option (String × List String)
  | [] => none
  | line :: rest =>
    if off_line_skipped line then skip_off_comments rest else some (line, rest)

/-- One vertex line: `np.array(line.split()).astype(float)` assigned to a
3-wide row, so exactly three float tokens. -/
def parse_off_vertex (line : String) : Option (ℚ × ℚ × ℚ) :=
  match (py_split line).mapM parse_float with
  | some [a, b, c] => some (a, b, c)
  | _ => none

/-- The vertex-reading loop of `readwriteoff.parse_off_file`: reads lines,
skipping comments and blanks, until the requested number of vertices has
been parsed. -/
def read_off_vertices : ℕ → List String → Option (List (ℚ × ℚ × ℚ) × List String)
  | 0, rest => some ([], rest)
  | _ + 1, [] => none
  | n + 1, line :: rest =>
    if off_line_skipped line then read_off_vertices (n + 1) rest
    else
      match parse_off_vertex line with
      | none => none
      | some v =>
        match read_off_vertices n rest with
        | none => none
        | some (vs, remaining) => some (v :: vs, remaining)

/-- One face line of `readwriteoff.parse_off_file`:
`face_line.split()[:(int(face_line.split()[0]) + 1)]` cast to int — the
leading vertex count is kept, any trailing colour values are dropped. -/
def parse_off_face_line (line : String) : Option (List ℤ) :=
  match py_split line with
  | [] => none
  | tok0 :: toks =>
    match parse_int tok0 with
    | none => none
    | some n => ((tok0 :: toks).take (n + 1).toNat).mapM parse_int

/-- `readwriteoff.parse_off_file(off_file)` over the file's lines: requires
the `OFF` first line (otherwise `None`), skips comments/blanks, reads the
count line (only the vertex count is used; face and edge counts are
ignored), reads that many vertex lines, then parses every remaining
non-comment line as a face. -/
def parse_off_file (lines : List String) : Option (List (ℚ × ℚ × ℚ) × List (List ℤ)) :=
  match lines with
  | [] => none
  | file_start :: rest =>
    if file_start ≠ "OFF" then none
    else
      match skip_off_comments rest with
      | none => none
      | some (counts_line, rest) =>
        match py_split counts_line with
        | [] => none
        | tok0 :: _ =>
          match parse_int tok0 with
          | none => none
          | some number_of_vertices =>
            match read_off_vertices number_of_vertices.toNat rest with
            | none => none
            | some (off_vertices, faces_lines) =>
              match (faces_lines.filter
                  (fun line => ¬ (line.front == '#'))).mapM parse_off_face_line with
              | none => none
              | some all_faces => some (off_vertices, all_faces)

/-! ## `src/idfparser.py`

The IDF document is modelled structurally: a list of `type` elements (with
their `is` attribute, geometry child and sub-`component` children), a list of
root-level `component` elements and a list of `idlist` elements.  The
`__get_vector` unit/axis-convention pipeline (`CoordinateTransformer`) is
outside the claims settled here, so modelled location elements carry their
already-converted cartesian vectors; location elements without any
coordinate attributes (which `__get_vector` maps to `None`) are likewise
outside the model. -/

/-- One `<id>` element of an `<idlist>`. -/
structure IdfIdElem where
  idStart : Option ℤ
  idEnd : Option ℤ
  idVal : Option ℤ

/-- One `<idlist idname=..>` element. -/
structure IdfIdList where
  idname : String
  ids : List IdfIdElem

/-- A `<location>` child of a component: either a single point or a
`<locations>` linear run (`n-elements` points evenly spaced between a start
and an end value on the first axis that carries an attribute). -/
inductive IdfLocation where
  | loc (v : Vec3)
  | locs (axis : Fin 3) (start stop : ℝ) (n : ℕ)

/-- The geometry child of a `type` element, as inspected by
`IDFParser.__get_shape`. -/
inductive IdfGeom where
  | noGeom
  | cuboidGeom (left_front_bottom left_front_top left_back_bottom right_front_bottom : Vec3)
  | cylinderGeom (axis : Vec3) (radius height : ℝ)
  | otherGeom

/-- A `<component type=..>` child of a `type` element. -/
structure IdfSubComponent where
  type_attr : String
  idlist_attr : Option String
  children : List IdfLocation

/-- A `<type>` element. -/
structure IdfType where
  name : String
  is_attr : Option String
  geom : IdfGeom
  components : List IdfSubComponent

/-- A root-level `<component type=..>` element. -/
structure IdfRootComponent where
  type_attr : String
  comp_name : Option String
  idlist_attr : Option String
  children : List IdfLocation

/-- The modelled IDF document. -/
structure IdfDocument where
  types : List IdfType
  components : List IdfRootComponent
  idlists : List IdfIdList

/-- The pixel shape dictionaries built by `__parse_cuboid` / `__parse_cylinder`. -/
inductive PixelShape where
  | cuboid (x_pixel_size y_pixel_size thickness : ℝ)
  | cylinder (axis : Vec3) (radius height : ℝ)

/-- Python `range(a, b)` over integers, as a list. -/
def int_range (a b : ℤ) : List ℤ :=
  (List.range (b - a).toNat).map (fun (i : ℕ) => a + (i : ℤ))

/-- Expansion of one `<id>` element by `IDFParser.__get_id_list`:
`start`/`end` present gives `range(start, end + 1)` (both endpoints
included); otherwise `val` present gives that single id; otherwise the
method raises `Could not find IDs in idlist`.  A `start` without an `end`
hits `int(None)` in the Python (`TypeError`). -/
def expand_id_elem (idname : String) (e : IdfIdElem) : Except String (List ℤ) :=
  match e.idStart with
  | some s =>
    match e.idEnd with
    | some en => Except.ok (int_range s (en + 1))
    | none => Except.error "TypeError: id element has start but no end"
  | none =>
    match e.idVal with
    | some v => Except.ok [v]
    | none => Except.error ("Could not find IDs in idlist called " ++ idname)

/-- `IDFParser.__get_id_list(idname)`: every `<idlist>` whose `idname`
matches contributes its expanded `<id>` elements, concatenated in document
order; an absent name simply contributes nothing. -/
def get_id_list (doc : IdfDocument) (idname : String) : Except String (List ℤ) :=
  (doc.idlists.filter (fun l => l.idname = idname)).foldlM
    (fun acc l =>
      l.ids.foldlM (fun acc e => (expand_id_elem idname e).map (fun ids => acc ++ ids)) acc)
    []

/-- `IDFParser.__get_shape(xml_type)`: a `cuboid` child gives the cuboid
sizes (`__parse_cuboid`: edge lengths from the four corner points), a
`cylinder` child gives the normalised axis with radius and height
(`__parse_cylinder`); no children gives `None`; any other children raise
`pixel is not of known shape`. -/
noncomputable def get_shape : IdfGeom → Except String (Option PixelShape)
  | IdfGeom.noGeom => Except.ok none
  | IdfGeom.cuboidGeom lfb lft lbb rfb =>
    Except.ok (some (PixelShape.cuboid
      (Vec3.magnitude (rfb - lfb)) (Vec3.magnitude (lbb - lfb)) (Vec3.magnitude (lft - lfb))))
  | IdfGeom.cylinderGeom axis radius height =>
    Except.ok (some (PixelShape.cylinder (normalise axis).1 radius height))
  | IdfGeom.otherGeom => Except.error "pixel is not of known shape"

/-- `IDFParser.__get_pixel_names_and_shapes`: the name and parsed shape of
every `type` element whose `is` attribute is `detector`. -/
noncomputable def get_pixel_names_and_shapes (doc : IdfDocument) :
    Except String (List (String × Option PixelShape)) :=
  (doc.types.filter (fun t => t.is_attr = some "detector")).mapM
    (fun t => (get_shape t.geom).map (fun s => (t.name, s)))

/-- `np.linspace(start, stop, num)` (endpoints included). -/
noncomputable def np_linspace (start stop : ℝ) (num : ℕ) : List ℝ :=
  if num = 1 then [start]
  else (List.range num).map (fun (i : ℕ) => start + (stop - start) * (i : ℝ) / ((num : ℝ) - 1))

/-- The vector with value `r` on the given axis and zero elsewhere
(`location_vector[axis_number] = location` applied to `[0,0,0]`). -/
noncomputable def axis_vector : Fin 3 → ℝ → Vec3
  | 0, r => ⟨r, 0, 0⟩
  | 1, r => ⟨0, r, 0⟩
  | 2, r => ⟨0, 0, r⟩

/-- `IDFParser.__get_detector_offsets(xml_type)`: each `<location>` child
contributes its point, each `<locations>` child contributes its
`n-elements` evenly spaced points along its axis, in document order. -/
noncomputable def get_detector_offsets (children : List IdfLocation) : List Vec3 :=
  children.flatMap (fun c =>
    match c with
    | IdfLocation.loc v => [v]
    | IdfLocation.locs axis start stop n => (np_linspace start stop n).map (axis_vector axis))

/-- The idlist value stored on a collected component dictionary: the
new-component branch of `__append_component` stores the resolved id list,
while the existing-component branch stores the raw idlist name string. -/
inductive IdlistVal where
  | nameRef (name : String)
  | resolved (ids : List ℤ)

/-- A collected component dictionary (`__append_component`): the containing
type's name, the accumulated sub-component type names with one location
list per sub-component entry, the optional idlist and the `pixels`
accumulator used by `__collate_detector_info`.  The `<facing>` orientation
parsing is independent of the offsets and not modelled. -/
structure IdfComponent where
  name : String
  sub_components : List String
  locations : List (List Vec3)
  idlist : Option IdlistVal
  pixels : List String

/-- `IDFParser.__calculate_new_offsets(old_offsets, new_offsets)`: for each
new (parent) offset, every old (child) offset is translated by it and the
results appended, in parent-major order. -/
noncomputable def calculate_new_offsets (old_offsets new_offsets : List Vec3) : List Vec3 :=
  new_offsets.flatMap (fun new_offset => old_offsets.map (fun old => old + new_offset))

/-- `IDFParser.__find_top_level_detector_names(components)`: component names
that never occur as a sub-component name. -/
def find_top_level_detector_names (components : List IdfComponent) : List String :=
  let sub_component_names := components.flatMap (fun c => c.sub_components)
  (components.map (fun c => c.name)).filter (fun n => ¬ sub_component_names.contains n)

/-- A top-level detector record appended by `__collate_detector_info`: the
modelled fields of the collated component dictionary (`name`, resolved
`offsets`, its single pixel type name and its own location). -/
structure IdfDetector where
  name : String
  offsets : List Vec3
  pixel_name : String
  location : Option Vec3

/-- The mutable state of `__collate_detector_info`: resolved offsets per
component name (`component['offsets']` for components already handled), the
accumulated `component['pixels']` lists, and the detectors list. -/
structure CollateState where
  knownOffsets : List (String × List Vec3)
  knownPixels : List (String × List String)
  detectors : List IdfDetector

/-- Replace the binding of `k` or append it (the store-or-overwrite of a
value on a component dictionary, keyed by component name). -/
def upsert {α : Type} (l : List (String × α)) (k : String) (v : α) :
    List (String × α) :=
  if (l.map Prod.fst).contains k then l.map (fun p => if p.1 = k then (k, v) else p)
  else l ++ [(k, v)]

/-- Membership in `component_names_offsets_known` (seeded with the pixel
type names, grown with each resolved component name). -/
def offsets_known (pixel_names : List String) (st : CollateState) (n : String) : Bool :=
  pixel_names.contains n || (st.knownOffsets.map Prod.fst).contains n

/-- The per-sub-component data gathered inside `__collate_detector_info`'s
resolution step: a pixel-type sub-component contributes offset list
`[[0,0,0]]` and itself as pixel name; any other sub-component contributes
its previously resolved offsets (`__get_component_offsets`) and pixels
(`__get_component_pixels`). -/
noncomputable def collate_sub_data (pixel_names : List String) (st : CollateState) (sub : String) :
    List Vec3 × List String :=
  if pixel_names.contains sub then ([⟨0, 0, 0⟩], [sub])
  else ((st.knownOffsets.lookup sub).getD [], (st.knownPixels.lookup sub).getD [])

/-- `IDFParser.__all_elements_equal(input_list)`:
`input_list.count(input_list[0]) == len(input_list)`; an empty list hits an
`IndexError` in the Python. -/
def all_elements_equal (l : List String) : Except String Bool :=
  match l with
  | [] => Except.error "IndexError: empty pixels list in __all_elements_equal"
  | a :: _ => Except.ok (l.count a = l.length)

/-- One component step of the `for component in components` loop inside
`__collate_detector_info`: if all sub-components are resolved, gather their
offset lists and pixels, reject multiple pixel types
(`NotImplementedError`), then either record a top-level detector (offsets
are the concatenation of the sub-component offset lists; its own location
is `locations[0][0]`) or compose each sub-component offset list with the
matching location list through `__calculate_new_offsets`. -/
noncomputable def collate_component (pixel_names : List String) (top_level : List String)
    (st : CollateState) (comp : IdfComponent) : Except String CollateState :=
  if comp.sub_components.all (offsets_known pixel_names st) then
    let data := comp.sub_components.map (collate_sub_data pixel_names st)
    let sub_component_offsets := data.map Prod.fst
    let new_pixels := ((st.knownPixels.lookup comp.name).getD comp.pixels) ++
      data.flatMap Prod.snd
    match all_elements_equal new_pixels with
    | Except.error e => Except.error e
    | Except.ok false =>
      Except.error (comp.name ++ " has multiple pixel types, need to implement treating " ++
        "its sub-components as NXdetector_modules")
    | Except.ok true =>
      if top_level.contains comp.name then
        let offsets := sub_component_offsets.flatten
        Except.ok
          { knownOffsets := upsert st.knownOffsets comp.name offsets
            knownPixels := upsert st.knownPixels comp.name new_pixels
            detectors := st.detectors ++
              [{ name := comp.name
                 offsets := offsets
                 pixel_name := new_pixels.headD ""
                 location := (comp.locations.head?).bind List.head? }] }
      else
        let offsets := (sub_component_offsets.zip comp.locations).flatMap
          (fun p => calculate_new_offsets p.1 p.2)
        Except.ok
          { knownOffsets := upsert st.knownOffsets comp.name offsets
            knownPixels := upsert st.knownPixels comp.name new_pixels
            detectors := st.detectors }
  else Except.ok st

/-- One full pass of the `for component in components` loop. -/
noncomputable def collate_pass (pixel_names : List String) (top_level : List String)
    (components : List IdfComponent) (st : CollateState) : Except String CollateState :=
  components.foldlM (collate_component pixel_names top_level) st

/-- The `while component_names_offsets_known != all_component_names` loop of
`__collate_detector_info`.  The known set only ever contains pixel names and
component names, so the loop exits exactly when every component name is
known.  The fuel bounds the pass count (the Python loop never terminates on
unresolvable inputs; enough fuel is supplied at every use below). -/
noncomputable def collate_loop :
    ℕ → List String → List String → List IdfComponent → CollateState →
    Except String CollateState
  | 0, _, _, _, _ => Except.error "collate loop did not converge"
  | fuel + 1, pixel_names, top_level, components, st =>
    if (components.map (fun c => c.name)).all (offsets_known pixel_names st) then Except.ok st
    else
      match collate_pass pixel_names top_level components st with
      | Except.error e => Except.error e
      | Except.ok st' => collate_loop fuel pixel_names top_level components st'

/-- `IDFParser.__collate_detector_info(pixels, components, top_level)`:
run the resolution loop from the empty state and return the accumulated
detectors. -/
noncomputable def collate_detector_info (fuel : ℕ) (pixel_names : List String)
    (components : List IdfComponent) (top_level : List String) :
    Except String (List IdfDetector) :=
  (collate_loop fuel pixel_names top_level components ⟨[], [], []⟩).map
    (fun st => st.detectors)

/-- The matches one `__collect_detector_components` call iterates over for a
given `search_type`: first every `<component type=search_type>` child of a
`type` element (under the containing type's name), then every root-level
`<component type=search_type>` (under its own `name` attribute, or a fresh
generated name when absent — `uuid.uuid4()` in the Python). -/
def collect_matches (doc : IdfDocument) (search_type : String) :
    List (String × Option String × List IdfLocation) :=
  (doc.types.flatMap (fun t =>
    (t.components.filter (fun c => c.type_attr = search_type)).map
      (fun c => (t.name, c.idlist_attr, c.children)))) ++
  ((doc.components.filter (fun c => c.type_attr = search_type)).map
    (fun c => (c.comp_name.getD ("uuid:" ++ search_type), c.idlist_attr, c.children)))

/-- The component-list update of `IDFParser.__append_component` (everything
before its recursive call): an already-collected component of this name
gains the sub-component type, the new location list and (when present) the
idlist name; a new component is appended with the resolved idlist when the
attribute is present (`__get_id_list` may raise). -/
noncomputable def append_component_update (doc : IdfDocument) (name : String)
    (idlist_attr : Option String) (children : List IdfLocation) (search_type : String)
    (components : List IdfComponent) : Except String (List IdfComponent) :=
  let offsets := get_detector_offsets children
  if (components.map (fun c => c.name)).contains name then
    Except.ok (components.map (fun c =>
      if c.name = name then
        { c with
          sub_components := c.sub_components ++ [search_type]
          idlist := match idlist_attr with
            | some s => some (IdlistVal.nameRef s)
            | none => c.idlist
          locations := c.locations ++ [offsets] }
      else c))
  else
    match idlist_attr with
    | some s =>
      (get_id_list doc s).map (fun ids =>
        components ++ [⟨name, [search_type], [offsets], some (IdlistVal.resolved ids), []⟩])
    | none =>
      Except.ok (components ++ [⟨name, [search_type], [offsets], none, []⟩])

/-- The state threaded through `__collect_detector_components`: the shared
components list and the `searched_already` list. -/
structure CollectState where
  components : List IdfComponent
  searched : List String

/-- `IDFParser.__collect_detector_components(components, search_type,
searched_already)`: skip already-searched types, otherwise record the type
as searched and, for every element instantiating `search_type`, run
`__append_component` (which updates the components list and recurses upward
on the containing name).  The fuel bounds the recursion depth; each level of
recursion adds a name to `searched`, so any fuel above the number of
distinct names suffices. -/
noncomputable def collect_detector_components :
    ℕ → IdfDocument → String → CollectState → Except String CollectState
  | 0, _, _, _ => Except.error "recursion limit reached in collect_detector_components"
  | fuel + 1, doc, search_type, st =>
    if st.searched.contains search_type then Except.ok st
    else
      (collect_matches doc search_type).foldlM
        (fun st' m =>
          match append_component_update doc m.1 m.2.1 m.2.2 search_type st'.components with
          | Except.error e => Except.error e
          | Except.ok comps =>
            collect_detector_components fuel doc m.1 ⟨comps, st'.searched⟩)
        ⟨st.components, st.searched ++ [search_type]⟩

/-- `IDFParser.__fix_top_level_components(components, top_level)`.  Its merge
branch fires only for a top-level component whose first location carries no
coordinates (`__get_vector` returned `None`); such coordinate-less location
elements are outside this model (every modelled location is a concrete
point), so on modelled inputs the method leaves the components and the
top-level name set unchanged. -/
def fix_top_level_components (components : List IdfComponent) (top_level : List String) :
    List IdfComponent × List String :=
  (components, top_level)

/-- `IDFParser.get_detectors()`: gather the pixel types (`is="detector"`),
collect the components instantiating each pixel type upward (with a fresh
`searched_already` list per pixel, sharing the components list), find the
top-level names, fix wrapper components, and collate. -/
noncomputable def get_detectors (doc : IdfDocument) : Except String (List IdfDetector) :=
  match get_pixel_names_and_shapes doc with
  | Except.error e => Except.error e
  | Except.ok pixels =>
    let fuel := doc.types.length + doc.components.length + 1
    match pixels.foldlM
        (fun (st : CollectState) pixel =>
          (collect_detector_components fuel doc pixel.1 ⟨st.components, []⟩))
        ⟨[], []⟩ with
    | Except.error e => Except.error e
    | Except.ok st =>
      let top_level := find_top_level_detector_names st.components
      let fixed := fix_top_level_components st.components top_level
      collate_detector_info (fixed.1.length + 1) (pixels.map Prod.fst) fixed.1 fixed.2

/-- The Rodrigues rotation matrix of `(axis, theta)` applied to a point, as
a `Vec3` (the 3x3 block action of the homogeneous rotation matrix). -/
noncomputable def rot_apply (axis : Vec3) (theta : ℝ) (v : Vec3) : Vec3 :=
  let rm := rotation_matrix_from_axis_and_angle axis theta
  ⟨rm 0 0 * v.x + rm 0 1 * v.y + rm 0 2 * v.z,
   rm 1 0 * v.x + rm 1 1 * v.y + rm 1 2 * v.z,
   rm 2 0 * v.x + rm 2 1 * v.y + rm 2 2 * v.z⟩

/-- The homogeneous column vector `[x, y, z, 1]` of a point (the fourth
component 1 marks a position, as in `nexustooff.get_and_apply_transformations`). -/
noncomputable def homog (v : Vec3) : Fin 4 → ℝ :=
  ![v.x, v.y, v.z, 1]

/-- A linear component chain, bottom-up: each entry `(name, locs)` declares
a component whose single sub-component is the previous entry's name (the
pixel type for the first entry), instantiated at the offset list `locs`. -/
def chain_components : String → List (String × List Vec3) → List IdfComponent
  | _, [] => []
  | prev, (n, locs) :: rest => ⟨n, [prev], [locs], none, []⟩ :: chain_components n rest

/-- Offsets accumulated along a chain of location lists by repeated
cartesian composition. -/
noncomputable def chain_offsets : List Vec3 → List (List Vec3) → List Vec3
  | acc, [] => acc
  | acc, locs :: rest => chain_offsets (calculate_new_offsets acc locs) rest

/-- The `knownOffsets` bindings accumulated while resolving a chain bottom-up:
each entry binds its name to the previous offsets composed with its location
list. -/
noncomputable def chainBindOffs : List Vec3 → List (String × List Vec3) → List (String × List Vec3)
  | _, [] => []
  | offs, (n, L) :: rest =>
      (n, calculate_new_offsets offs L) :: chainBindOffs (calculate_new_offsets offs L) rest

/-- The relation `collate_sub_data` establishes between a resolved
sub-component name and its offset list: either the name is the pixel type
itself (offsets `[[0,0,0]]`), or the state binds it to the offsets with
pixel list `[pixel]`. -/
def ChainSub (pixel : String) (st : CollateState) (p : String) (offs : List Vec3) : Prop :=
  (p = pixel ∧ offs = [⟨0, 0, 0⟩]) ∨
  (p ≠ pixel ∧ st.knownOffsets.lookup p = some offs ∧ st.knownPixels.lookup p = some [pixel])

/-- Well-formedness of one `<id>` element: either a `start`/`end` range or
an explicit `val`. -/
def idElemWf (e : IdfIdElem) : Prop :=
  (∃ s en, e.idStart = some s ∧ e.idEnd = some en) ∨
  (e.idStart = none ∧ ∃ v, e.idVal = some v)

/-- The pure expansion of a well-formed `<id>` element: the inclusive
`start..end` range, or the single `val`. -/
def expand_id_elem_ok (e : IdfIdElem) : List ℤ :=
  match e.idStart with
  | some s =>
    match e.idEnd with
    | some en => int_range s (en + 1)
    | none => []
  | none =>
    match e.idVal with
    | some v => [v]
    | none => []

/-! ## Concrete data used by witnesses -/

/-- A concrete translation dataset (value 2 along x), stored at `"/t"`,
depending on `"/r"`. -/
noncomputable def w1_translation : NexusTransform :=
  ⟨"translation", ⟨1, 0, 0⟩, 2, none, "/r"⟩

/-- A concrete rotation dataset (90 degrees about z), stored at `"/r"`,
terminating the chain. -/
noncomputable def w1_rotation : NexusTransform :=
  ⟨"rotation", ⟨0, 0, 1⟩, 90, none, "."⟩

/-- A concrete two-transform NeXus file. -/
noncomputable def w1_file : List (String × NexusTransform) :=
  [("/t", w1_translation), ("/r", w1_rotation)]

/-- The chain stored in `w1_file`, in child-to-root order from `"/t"`. -/
noncomputable def w1_chain : List (String × NexusTransform) :=
  [("/t", w1_translation), ("/r", w1_rotation)]

/-- A concrete pixel mesh: two vertices, one face, three winding entries. -/
noncomputable def w5_pixel : GeomData :=
  ⟨[⟨0, 0, 0⟩, ⟨1, 0, 0⟩], [0], [0, 1, 0]⟩

/-- Two concrete pixel offsets. -/
noncomputable def w5_offsets : List Vec3 :=
  [⟨0, 0, 1⟩, ⟨0, 2, 0⟩]

/-- A concrete three-level chain body for the cartesian-composition witness:
the pixel sits at three positions inside a tube, tubes at two positions
inside a bank. -/
noncomputable def w4_body : List (String × List Vec3) :=
  [("tube", [⟨1, 0, 0⟩, ⟨2, 0, 0⟩, ⟨3, 0, 0⟩]), ("bank", [⟨0, 1, 0⟩, ⟨0, 2, 0⟩])]

/-- The single location of the witness chain's top-level component. -/
noncomputable def w4_top_loc : List Vec3 :=
  [⟨5, 5, 5⟩]

/-! ## Theorems -/

/-- Applying the collected matrices in list order left-multiplies the vertex
by each in turn, so the composite transform is the product of the matrix
list read in reverse (root-most factor leftmost/outermost, nearest factor
rightmost, acting on the vertex first). -/
theorem do_transformations_eq_reverse_prod (mats : List Mat4) (v : Fin 4 → ℝ) :
    do_transformations mats v = (mats.reverse.prod).mulVec v := by
  induction mats generalizing v with
  | nil => simp [do_transformations]
  | cons m rest ih =>
    have : do_transformations (m :: rest) v = do_transformations rest (m.mulVec v) := rfl
    rw [this, ih (m.mulVec v), Matrix.mulVec_mulVec]
    simp [List.prod_append]

/-- Collection follows a well-formed chain and returns the recognised
matrices in discovery (child-to-root) order. -/
theorem get_transformations_chain (file : List (String × NexusTransform))
    (chain : List (String × NexusTransform)) :
    ∀ (path : String) (fuel : ℕ), chain_wf file path chain → chain.length < fuel →
      get_transformations fuel file (some path)
        = some (chain.filterMap (fun pt => get_transformation_matrix pt.2)) := by
  induction chain with
  | nil =>
    intro path fuel hwf hfuel
    have hpath : path = "." := hwf
    cases fuel with
    | zero => omega
    | succ n => simp [get_transformations, hpath]
  | cons pt rest ih =>
    intro path fuel hwf hfuel
    obtain ⟨hp, hne, hlook, hrest⟩ := hwf
    cases fuel with
    | zero => simp at hfuel
    | succ n =>
      subst hp
      have hn : rest.length < n := by simpa using hfuel
      have hrec := ih pt.2.depends_on n hrest hn
      simp only [get_transformations, if_neg hne]
      rw [hlook]
      dsimp only
      rw [hrec]
      cases hm : get_transformation_matrix pt.2 <;> simp [List.filterMap_cons, hm]

/-- A path built by appending a transformation name is never the terminal
sentinel. -/
theorem append_transform_path_ne_dot (p s : String) (hs : 2 ≤ s.length) :
    p ++ s ≠ "." := by
  intro h
  have hlen := congrArg String.length h
  rw [String.length_append] at hlen
  have : ("." : String).length = 1 := by decide
  omega

/-- Appending distinct suffixes to the same prefix gives distinct paths. -/
theorem append_suffix_ne {p s t : String} (hst : s ≠ t) : p ++ s ≠ p ++ t := by
  intro h
  apply hst
  have hd := congrArg String.data h
  rw [String.data_append, String.data_append] at hd
  exact String.ext (List.append_cancel_left hd)

/-- The translation matrix appended by `get_transformation` for a
translation dataset without offset translates a homogeneous point by
`vector * value`. -/
theorem translation_matrix_apply (vec : Vec3) (val : ℝ) (dep : String) (w : Vec3) :
    ∃ m, get_transformation_matrix ⟨"translation", vec, val, none, dep⟩ = some m ∧
      m.mulVec (homog w) = homog (w + Vec3.smul val vec) := by
  refine ⟨_, rfl, ?_⟩
  funext i
  fin_cases i <;>
    simp [Matrix.mulVec, Matrix.dotProduct, Fin.sum_univ_four, homog, Vec3.add_def, Vec3.smul,
      Matrix.cons_val_zero, Matrix.cons_val_one, Matrix.head_cons]

/-- The rotation matrix appended by `get_transformation` for a rotation
dataset without offset rotates a homogeneous point by the Rodrigues matrix
of the axis and the angle converted from degrees to radians. -/
theorem rotation_matrix_apply (axis : Vec3) (val : ℝ) (dep : String) (w : Vec3) :
    ∃ m, get_transformation_matrix ⟨"rotation", axis, val, none, dep⟩ = some m ∧
      m.mulVec (homog w) = homog (rot_apply axis (val * (Real.pi / 180)) w) := by
  refine ⟨_, rfl, ?_⟩
  funext i
  fin_cases i <;>
    simp [Matrix.mulVec, Matrix.dotProduct, Fin.sum_univ_four, homog, rot_apply,
      Matrix.cons_val_zero, Matrix.cons_val_one, Matrix.head_cons]

/-- Version of `translation_matrix_apply` for a given collected matrix. -/
theorem translation_matrix_apply_eq (vec : Vec3) (val : ℝ) (dep : String) (w : Vec3) (m : Mat4)
    (h : get_transformation_matrix ⟨"translation", vec, val, none, dep⟩ = some m) :
    m.mulVec (homog w) = homog (w + Vec3.smul val vec) := by
  obtain ⟨m', hm', happ⟩ := translation_matrix_apply vec val dep w
  rw [hm'] at h
  cases h
  exact happ

/-- Version of `rotation_matrix_apply` for a given collected matrix. -/
theorem rotation_matrix_apply_eq (axis : Vec3) (val : ℝ) (dep : String) (w : Vec3) (m : Mat4)
    (h : get_transformation_matrix ⟨"rotation", axis, val, none, dep⟩ = some m) :
    m.mulVec (homog w) = homog (rot_apply axis (val * (Real.pi / 180)) w) := by
  obtain ⟨m', hm', happ⟩ := rotation_matrix_apply axis val dep w
  rw [hm'] at h
  cases h
  exact happ

/-- **C1** (counterexample): at the concrete stored chain of `w1_file`
(translation by `(2,0,0)` nearest to the geometry, rotation of 90 degrees
about z at the root), the chain is collected in child-to-root order, but
`do_transformations` applies the nearest-to-geometry matrix to the vertex
first and the root-most matrix last: the origin maps to `(0,2,0)`
(rotate after translate), whereas applying the same chain in reverse of
discovery order — the claimed root-most-first, nearest-last order — maps
the origin to `(2,0,0)`; the two results differ, so the claimed
application order is false of the code. -/
theorem C1_counterexample :
    chain_wf w1_file "/t" w1_chain
    ∧ get_transformations 3 w1_file (some "/t")
        = some (w1_chain.filterMap (fun pt => get_transformation_matrix pt.2))
    ∧ do_transformations (w1_chain.filterMap (fun pt => get_transformation_matrix pt.2))
        (homog ⟨0, 0, 0⟩) = homog ⟨0, 2, 0⟩
    ∧ do_transformations
        ((w1_chain.filterMap (fun pt => get_transformation_matrix pt.2)).reverse)
        (homog ⟨0, 0, 0⟩) = homog ⟨2, 0, 0⟩
    ∧ homog (⟨0, 2, 0⟩ : Vec3) ≠ homog (⟨2, 0, 0⟩ : Vec3) := by
  have hwf : chain_wf w1_file "/t" w1_chain :=
    ⟨rfl, by decide, rfl, rfl, by decide, rfl, rfl⟩
  obtain ⟨Mt, hMt, happT0⟩ := translation_matrix_apply ⟨1, 0, 0⟩ 2 "/r" ⟨0, 0, 0⟩
  obtain ⟨Mr, hMr, happR0⟩ := rotation_matrix_apply ⟨0, 0, 1⟩ 90 "." ⟨0, 0, 0⟩
  have hmats : w1_chain.filterMap (fun pt => get_transformation_matrix pt.2) = [Mt, Mr] := by
    simp [w1_chain, w1_translation, w1_rotation, List.filterMap_cons, hMt, hMr]
  have hv : (⟨0, 0, 0⟩ : Vec3) + Vec3.smul 2 ⟨1, 0, 0⟩ = ⟨2, 0, 0⟩ := by
    ext <;> simp [Vec3.smul, Vec3.add_def]
  have hpi : (90 : ℝ) * (Real.pi / 180) = Real.pi / 2 := by ring
  have hrot2 : rot_apply ⟨0, 0, 1⟩ ((90 : ℝ) * (Real.pi / 180)) ⟨2, 0, 0⟩ = ⟨0, 2, 0⟩ := by
    ext <;>
      simp [rot_apply, rotation_matrix_from_axis_and_angle, hpi,
        Real.cos_pi_div_two, Real.sin_pi_div_two,
        Matrix.cons_val_zero, Matrix.cons_val_one, Matrix.head_cons]
  have hrot0 : rot_apply ⟨0, 0, 1⟩ ((90 : ℝ) * (Real.pi / 180)) ⟨0, 0, 0⟩ = ⟨0, 0, 0⟩ := by
    ext <;>
      simp [rot_apply, rotation_matrix_from_axis_and_angle,
        Matrix.cons_val_zero, Matrix.cons_val_one, Matrix.head_cons]
  refine ⟨hwf, get_transformations_chain w1_file w1_chain "/t" 3 hwf (by decide), ?_, ?_, ?_⟩
  · rw [hmats]
    have h1 : do_transformations [Mt, Mr] (homog ⟨0, 0, 0⟩)
        = Mr.mulVec (Mt.mulVec (homog ⟨0, 0, 0⟩)) := rfl
    rw [h1, happT0, hv, rotation_matrix_apply_eq ⟨0, 0, 1⟩ 90 "." ⟨2, 0, 0⟩ Mr hMr, hrot2]
  · rw [hmats]
    have h2 : do_transformations ([Mt, Mr].reverse) (homog ⟨0, 0, 0⟩)
        = Mt.mulVec (Mr.mulVec (homog ⟨0, 0, 0⟩)) := rfl
    rw [h2, happR0, hrot0, translation_matrix_apply_eq ⟨1, 0, 0⟩ 2 "/r" ⟨0, 0, 0⟩ Mt hMt, hv]
  · intro h
    have h0 := congrArg (fun f => f 1) h
    norm_num [homog, Matrix.cons_val_one, Matrix.head_cons] at h0

/-- **C1** (amended): for every geometry node, the transform chain collected
from its `depends_on` reference is returned by `get_transformations` in
discovered child-to-root order (nearest dependency first), and
`do_transformations` applies the matrices in that same discovery order —
the head (nearest-to-geometry) matrix acts on the vertex first and the
root-most matrix last — so the composite matrix is the product of the
collected list reversed, with the root-most matrix as the leftmost
(outermost) factor. -/
theorem C1_amended_discovery_order_application
    (file chain : List (String × NexusTransform)) (path : String) (fuel : ℕ)
    (hwf : chain_wf file path chain) (hfuel : chain.length < fuel) :
    get_transformations fuel file (some path)
      = some (chain.filterMap (fun pt => get_transformation_matrix pt.2))
    ∧ (∀ (m : Mat4) (rest : List Mat4) (v : Fin 4 → ℝ),
        do_transformations (m :: rest) v = do_transformations rest (m.mulVec v))
    ∧ ∀ v, do_transformations (chain.filterMap (fun pt => get_transformation_matrix pt.2)) v
        = ((chain.filterMap (fun pt => get_transformation_matrix pt.2)).reverse.prod).mulVec v :=
  ⟨get_transformations_chain file chain path fuel hwf hfuel,
   fun _ _ _ => rfl,
   fun v => do_transformations_eq_reverse_prod _ v⟩

/-- Witness for the amended C1 at a concrete two-transform chain. -/
theorem C1_amended_discovery_order_application_witness :
    (chain_wf w1_file "/t" w1_chain ∧ w1_chain.length < 3)
    ∧ (get_transformations 3 w1_file (some "/t")
        = some (w1_chain.filterMap (fun pt => get_transformation_matrix pt.2))
      ∧ (∀ (m : Mat4) (rest : List Mat4) (v : Fin 4 → ℝ),
          do_transformations (m :: rest) v = do_transformations rest (m.mulVec v))
      ∧ ∀ v, do_transformations (w1_chain.filterMap (fun pt => get_transformation_matrix pt.2)) v
          = ((w1_chain.filterMap (fun pt => get_transformation_matrix pt.2)).reverse.prod).mulVec v) := by
  have hwf : chain_wf w1_file "/t" w1_chain :=
    ⟨rfl, by decide, rfl, rfl, by decide, rfl, rfl⟩
  have hlen : w1_chain.length < 3 := by decide
  exact ⟨⟨hwf, hlen⟩,
    C1_amended_discovery_order_application w1_file w1_chain "/t" 3 hwf hlen⟩

/-- The unit vector times the magnitude returned by `normalise` recovers the
input (also for the zero vector). -/
theorem normalise_smul (v : Vec3) : Vec3.smul (normalise v).2 (normalise v).1 = v := by
  by_cases h : Vec3.magnitude v = 0
  · have hv : v = 0 := (Vec3.magnitude_eq_zero_iff v).mp h
    subst hv
    ext <;> simp [normalise, h, Vec3.smul]
  · simp only [normalise, if_neg h]
    ext <;> simp [Vec3.smul, Vec3.divScalar] <;> field_simp

/-- Collecting the chain emitted by `__add_detector_transformations` for a
detector with both location and orientation: the walk starts at the
detector's `depends_on` (the rotation), proceeds to the translation and
terminates at the sentinel, returning the rotation matrix then the
translation matrix, with the emitted attribute values. -/
theorem emitted_chain_collect (u p : String) (loc : Vec3) (o : IdfOrientation) :
    ∃ m_rot m_trans,
      get_transformations 3
          ((add_detector_transformations u p (some loc) (some o)).1.map
            TransformDataset.toEntry)
          (add_detector_transformations u p (some loc) (some o)).2
        = some [m_rot, m_trans]
      ∧ get_transformation_matrix
          ⟨"rotation", o.axis, o.angle, none, p ++ "/transformations/location"⟩ = some m_rot
      ∧ get_transformation_matrix
          ⟨"translation", (normalise loc).1, (normalise loc).2, none, "."⟩ = some m_trans := by
  have hRT : (p ++ "/transformations/orientation") ≠ (p ++ "/transformations/location") :=
    append_suffix_ne (by decide)
  have hRdot : (p ++ "/transformations/orientation") ≠ "." :=
    append_transform_path_ne_dot _ _ (by decide)
  have hTdot : (p ++ "/transformations/location") ≠ "." :=
    append_transform_path_ne_dot _ _ (by decide)
  refine ⟨_, _, ?_, rfl, rfl⟩
  have hfile :
      (add_detector_transformations u p (some loc) (some o)).1.map TransformDataset.toEntry
        = [(p ++ "/transformations/location",
            ⟨"translation", (normalise loc).1, (normalise loc).2, none, "."⟩),
           (p ++ "/transformations/orientation",
            ⟨"rotation", o.axis, o.angle, none, p ++ "/transformations/location"⟩)] := rfl
  have hdep : (add_detector_transformations u p (some loc) (some o)).2
      = some (p ++ "/transformations/orientation") := rfl
  have hl1 : List.lookup (p ++ "/transformations/orientation")
      [(p ++ "/transformations/location",
        (⟨"translation", (normalise loc).1, (normalise loc).2, none, "."⟩ : NexusTransform)),
       (p ++ "/transformations/orientation",
        ⟨"rotation", o.axis, o.angle, none, p ++ "/transformations/location"⟩)]
      = some ⟨"rotation", o.axis, o.angle, none, p ++ "/transformations/location"⟩ := by
    simp [List.lookup, beq_eq_false_iff_ne.mpr hRT]
  have hl2 : List.lookup (p ++ "/transformations/location")
      [(p ++ "/transformations/location",
        (⟨"translation", (normalise loc).1, (normalise loc).2, none, "."⟩ : NexusTransform)),
       (p ++ "/transformations/orientation",
        ⟨"rotation", o.axis, o.angle, none, p ++ "/transformations/location"⟩)]
      = some ⟨"translation", (normalise loc).1, (normalise loc).2, none, "."⟩ := by
    simp [List.lookup]
  have hwf : chain_wf
      [(p ++ "/transformations/location",
        (⟨"translation", (normalise loc).1, (normalise loc).2, none, "."⟩ : NexusTransform)),
       (p ++ "/transformations/orientation",
        ⟨"rotation", o.axis, o.angle, none, p ++ "/transformations/location"⟩)]
      (p ++ "/transformations/orientation")
      [(p ++ "/transformations/orientation",
        (⟨"rotation", o.axis, o.angle, none, p ++ "/transformations/location"⟩ : NexusTransform)),
       (p ++ "/transformations/location",
        ⟨"translation", (normalise loc).1, (normalise loc).2, none, "."⟩)] :=
    ⟨rfl, hRdot, hl1, rfl, hTdot, hl2, rfl⟩
  rw [hfile, hdep]
  rw [get_transformations_chain _ _ _ 3 hwf (by simp)]
  rfl

/-- **C2** (counterexample): at a concrete detector with both an orientation
and a location, the claim's emission order is false: the first-emitted node
is not a rotation depending on the terminal sentinel, the second-emitted
node is not a translation, and the detector's `depends_on` output does not
point at a translation node. -/
theorem C2_counterexample :
    ¬ (((add_detector_transformations "m" "/det" (some ⟨0, 0, 2⟩)
          (some ⟨⟨0, 1, 0⟩, 45⟩)).1.head?.map
            (fun t => (t.transformation_type, t.depends_on)) = some ("rotation", "."))
      ∧ ((add_detector_transformations "m" "/det" (some ⟨0, 0, 2⟩)
          (some ⟨⟨0, 1, 0⟩, 45⟩)).1.getLast?.map
            (fun t => t.transformation_type) = some "translation")
      ∧ ((add_detector_transformations "m" "/det" (some ⟨0, 0, 2⟩)
          (some ⟨⟨0, 1, 0⟩, 45⟩)).2
          = ((add_detector_transformations "m" "/det" (some ⟨0, 0, 2⟩)
              (some ⟨⟨0, 1, 0⟩, 45⟩)).1.getLast?.map (fun t => t.path)))) := by
  intro h
  have h1 := h.1
  simp only [add_detector_transformations, List.head?, List.map] at h1
  have : ("translation", (".")) = ("rotation", (".")) := by
    exact Option.some.inj h1
  simp at this

/-- **C2** (amended): with both an orientation and a location,
`__add_detector_transformations` emits the translation node first with
`depends_on` the terminal sentinel, then the rotation node whose
`depends_on` references the translation node, and the detector's own
`depends_on` points at the last-emitted (rotation) node; with only a
location it emits a single translation node depending on the terminal
sentinel and points the detector at it; with no location it emits nothing.
Walking the emitted chain from the detector's `depends_on` reference visits
the rotation, then the translation, then terminates. -/
theorem C2_amended_translation_first_rotation_last (u p : String) (loc : Vec3)
    (o : IdfOrientation) :
    ((add_detector_transformations u p (some loc) (some o)).1.map
        (fun t => (t.transformation_type, t.depends_on))
      = [("translation", "."), ("rotation", p ++ "/transformations/location")])
    ∧ (add_detector_transformations u p (some loc) (some o)).2
        = some (p ++ "/transformations/orientation")
    ∧ (add_detector_transformations u p (some loc) none).1.map
        (fun t => (t.transformation_type, t.depends_on)) = [("translation", ".")]
    ∧ (add_detector_transformations u p (some loc) none).2
        = some (p ++ "/transformations/location")
    ∧ add_detector_transformations u p none (some o) = ([], none)
    ∧ ∃ m_rot m_trans,
        get_transformations 3
            ((add_detector_transformations u p (some loc) (some o)).1.map
              TransformDataset.toEntry)
            (add_detector_transformations u p (some loc) (some o)).2
          = some [m_rot, m_trans] := by
  refine ⟨rfl, rfl, rfl, rfl, rfl, ?_⟩
  obtain ⟨m_rot, m_trans, hchain, -, -⟩ := emitted_chain_collect u p loc o
  exact ⟨m_rot, m_trans, hchain⟩

/-- **C3** (confirmed): for every detector emitted with both a rotation and a
translation, collecting the chain from the detector's `depends_on` and
applying it to a homogeneous vertex yields `translate(rotate(v))` — the
rotation (nearest to the geometry) acts on the vertex first and the
translation (root of the chain) last; and for the non-trivial rotation of
90 degrees about z with translation `(1,0,0)`, `translate(rotate(v))` and
`rotate(translate(v))` differ at `v = (0,0,0)`, so only the former matches
the chain application. -/
theorem C3_chain_application_is_translate_after_rotate (u p : String) (loc axis : Vec3)
    (angle : ℝ) :
    (∃ m_rot m_trans,
        get_transformations 3
            ((add_detector_transformations u p (some loc) (some ⟨axis, angle⟩)).1.map
              TransformDataset.toEntry)
            (add_detector_transformations u p (some loc) (some ⟨axis, angle⟩)).2
          = some [m_rot, m_trans]
      ∧ ∀ w : Vec3,
          do_transformations [m_rot, m_trans] (homog w)
            = homog (rot_apply axis (angle * (Real.pi / 180)) w + loc))
    ∧ rot_apply ⟨0, 0, 1⟩ ((90 : ℝ) * (Real.pi / 180)) 0 + (⟨1, 0, 0⟩ : Vec3)
        ≠ rot_apply ⟨0, 0, 1⟩ ((90 : ℝ) * (Real.pi / 180)) (0 + ⟨1, 0, 0⟩) := by
  constructor
  · obtain ⟨m_rot, m_trans, hchain, hR, hT⟩ := emitted_chain_collect u p loc ⟨axis, angle⟩
    refine ⟨m_rot, m_trans, hchain, ?_⟩
    intro w
    have h1 : do_transformations [m_rot, m_trans] (homog w)
        = m_trans.mulVec (m_rot.mulVec (homog w)) := rfl
    rw [h1, rotation_matrix_apply_eq axis angle _ w m_rot hR,
      translation_matrix_apply_eq _ _ _ _ m_trans hT, normalise_smul]
  · have hpi : (90 : ℝ) * (Real.pi / 180) = Real.pi / 2 := by ring
    intro h
    have hx := congrArg Vec3.x h
    simp [rot_apply, rotation_matrix_from_axis_and_angle, Vec3.add_def, hpi,
      Real.cos_pi_div_two, Real.sin_pi_div_two,
      Matrix.cons_val_zero, Matrix.cons_val_one, Matrix.head_cons] at hx

/-- `normalise` returns the magnitude in both branches. -/
theorem normalise_snd (v : Vec3) : (normalise v).2 = Vec3.magnitude v := by
  by_cases h : Vec3.magnitude v = 0
  · simp [normalise, h]
  · simp [normalise, h]

/-- The code's `isclose(mag, 0.0)` test with `rel_tol=1e-09`, `abs_tol=0.0`
on a nonnegative magnitude holds exactly for magnitude zero. -/
theorem isclose_mag_zero (a : ℝ) (ha : 0 ≤ a) :
    isclose a 0 (1 / 1000000000) 0 ↔ a = 0 := by
  unfold isclose
  constructor
  · intro h
    have h0 : |a - 0| = a := by rw [sub_zero, abs_of_nonneg ha]
    have h1 : max |a| |(0 : ℝ)| = a := by simp [abs_of_nonneg ha, ha]
    rw [h0, h1] at h
    have h2 : max ((1 / 1000000000) * a) 0 = (1 / 1000000000) * a :=
      max_eq_left (by positivity)
    rw [h2] at h
    linarith
  · intro h
    subst h
    simp

/-- The squared components of a normalised nonzero vector sum to 1. -/
theorem unit_sum_sq (v : Vec3) (hm : Vec3.magnitude v ≠ 0) :
    (v.x / Vec3.magnitude v) ^ 2 + (v.y / Vec3.magnitude v) ^ 2 +
      (v.z / Vec3.magnitude v) ^ 2 = 1 := by
  have h2 := Vec3.magnitude_sq v
  field_simp
  linarith

/-- Negating a vector keeps its magnitude. -/
theorem magnitude_neg_smul (a : Vec3) :
    Vec3.magnitude (Vec3.smul (-1) a) = Vec3.magnitude a := by
  unfold Vec3.magnitude Vec3.smul
  norm_num

/-- The unit vectors of a nonzero vector and of its negation are never
`np.allclose`: some component of a unit vector exceeds every tolerance. -/
theorem not_allclose_neg_unit (a : Vec3) (ha : a ≠ 0) :
    ¬ np_allclose (normalise a).1 (normalise (Vec3.smul (-1) a)).1 := by
  have hm : Vec3.magnitude a ≠ 0 := fun h => ha ((Vec3.magnitude_eq_zero_iff a).mp h)
  have hm0 : 0 < Vec3.magnitude a :=
    lt_of_le_of_ne (Vec3.magnitude_nonneg a) (Ne.symm hm)
  have hmneg : Vec3.magnitude (Vec3.smul (-1) a) = Vec3.magnitude a := magnitude_neg_smul a
  have hu1 : (normalise a).1 = a.divScalar (Vec3.magnitude a) := by
    simp [normalise, hm]
  have hu2 : (normalise (Vec3.smul (-1) a)).1
      = (Vec3.smul (-1) a).divScalar (Vec3.magnitude a) := by
    have hne : Vec3.magnitude (Vec3.smul (-1) a) ≠ 0 := by rw [hmneg]; exact hm
    simp [normalise, hne, hmneg, hm]
  intro hcl
  rw [hu1, hu2] at hcl
  simp only [Vec3.divScalar, Vec3.smul, np_allclose] at hcl
  obtain ⟨h1, h2, h3⟩ := hcl
  set m := Vec3.magnitude a with hmdef
  have hsum := unit_sum_sq a hm
  have e1 : a.x / m - -1 * a.x / m = 2 * (a.x / m) := by ring
  have e2 : a.y / m - -1 * a.y / m = 2 * (a.y / m) := by ring
  have e3 : a.z / m - -1 * a.z / m = 2 * (a.z / m) := by ring
  have f1 : -1 * a.x / m = -(a.x / m) := by ring
  have f2 : -1 * a.y / m = -(a.y / m) := by ring
  have f3 : -1 * a.z / m = -(a.z / m) := by ring
  rw [e1, f1, abs_neg, abs_mul, abs_two] at h1
  rw [e2, f2, abs_neg, abs_mul, abs_two] at h2
  rw [e3, f3, abs_neg, abs_mul, abs_two] at h3
  have b1 : |a.x / m| ≤ 1 / 100000000 := by linarith [abs_nonneg (a.x / m)]
  have b2 : |a.y / m| ≤ 1 / 100000000 := by linarith [abs_nonneg (a.y / m)]
  have b3 : |a.z / m| ≤ 1 / 100000000 := by linarith [abs_nonneg (a.z / m)]
  nlinarith [sq_abs (a.x / m), sq_abs (a.y / m), sq_abs (a.z / m),
    abs_nonneg (a.x / m), abs_nonneg (a.y / m), abs_nonneg (a.z / m)]

/-- The cross product of a vector with its negation vanishes. -/
theorem cross_neg_smul (a : Vec3) : Vec3.cross a (Vec3.smul (-1) a) = 0 := by
  ext <;> simp [Vec3.cross, Vec3.smul] <;> ring

/-- **C7** (confirmed): for non-zero input vectors,
`find_rotation_axis_and_angle_between_vectors` returns the "no rotation"
sentinel when the unit vectors agree within the `np.allclose` tolerance;
it fails (raises, modelled as `degenerate`) whenever the cross product is
zero while the vectors differ beyond tolerance — in particular on exactly
anti-parallel inputs `b = -a` — never silently picking an arbitrary axis;
and otherwise it returns `axis = cross(a,b)/|cross(a,b)|` and
`angle = -arccos(dot(a,b)/(|a||b|))`. -/
theorem C7_axis_angle_between_branches (a b : Vec3) (ha : a ≠ 0) (hb : b ≠ 0) :
    (np_allclose (normalise a).1 (normalise b).1 →
      find_rotation_axis_and_angle_between_vectors a b = RotationResult.noRotation)
    ∧ (¬ np_allclose (normalise a).1 (normalise b).1 → Vec3.cross a b = 0 →
      find_rotation_axis_and_angle_between_vectors a b = RotationResult.degenerate)
    ∧ (b = Vec3.smul (-1) a →
      find_rotation_axis_and_angle_between_vectors a b = RotationResult.degenerate)
    ∧ (¬ np_allclose (normalise a).1 (normalise b).1 → Vec3.cross a b ≠ 0 →
      find_rotation_axis_and_angle_between_vectors a b
        = RotationResult.axisAngle
            ((Vec3.cross a b).divScalar (Vec3.magnitude (Vec3.cross a b)))
            (-(1 : ℝ) * Real.arccos
              (Vec3.dot a b / (Vec3.magnitude a * Vec3.magnitude b)))) := by
  have hdeg : ¬ np_allclose (normalise a).1 (normalise b).1 → Vec3.cross a b = 0 →
      find_rotation_axis_and_angle_between_vectors a b = RotationResult.degenerate := by
    intro hcl hcross
    have hmagc : Vec3.magnitude (Vec3.cross a b) = 0 := by
      rw [hcross]
      exact (Vec3.magnitude_eq_zero_iff 0).mpr rfl
    have hic : isclose ((normalise (Vec3.cross a b)).2) 0 (1 / 1000000000) 0 := by
      rw [normalise_snd, hmagc]
      exact (isclose_mag_zero 0 le_rfl).mpr rfl
    simp only [find_rotation_axis_and_angle_between_vectors, if_neg hcl, if_pos hic]
  refine ⟨?_, hdeg, ?_, ?_⟩
  · intro hcl
    simp only [find_rotation_axis_and_angle_between_vectors, if_pos hcl]
  · intro hba
    subst hba
    exact hdeg (not_allclose_neg_unit a ha) (cross_neg_smul a)
  · intro hcl hcross
    have hmagc : Vec3.magnitude (Vec3.cross a b) ≠ 0 :=
      fun h => hcross ((Vec3.magnitude_eq_zero_iff _).mp h)
    have hic : ¬ isclose ((normalise (Vec3.cross a b)).2) 0 (1 / 1000000000) 0 := by
      rw [normalise_snd]
      intro h
      exact hmagc ((isclose_mag_zero _ (Vec3.magnitude_nonneg _)).mp h)
    simp only [find_rotation_axis_and_angle_between_vectors, if_neg hcl, if_neg hic]
    rw [normalise_snd, normalise_snd, normalise_snd]

/-- Witness for C7 at `a = (1,0,0)`, `b = (0,1,0)`: the vectors are neither
close nor degenerate, so the axis/angle branch applies. -/
theorem C7_axis_angle_between_branches_witness :
    ((⟨1, 0, 0⟩ : Vec3) ≠ 0 ∧ (⟨0, 1, 0⟩ : Vec3) ≠ 0)
    ∧ ((np_allclose (normalise ⟨1, 0, 0⟩).1 (normalise ⟨0, 1, 0⟩).1 →
        find_rotation_axis_and_angle_between_vectors ⟨1, 0, 0⟩ ⟨0, 1, 0⟩
          = RotationResult.noRotation)
      ∧ (¬ np_allclose (normalise ⟨1, 0, 0⟩).1 (normalise ⟨0, 1, 0⟩).1 →
          Vec3.cross ⟨1, 0, 0⟩ ⟨0, 1, 0⟩ = 0 →
        find_rotation_axis_and_angle_between_vectors ⟨1, 0, 0⟩ ⟨0, 1, 0⟩
          = RotationResult.degenerate)
      ∧ ((⟨0, 1, 0⟩ : Vec3) = Vec3.smul (-1) ⟨1, 0, 0⟩ →
        find_rotation_axis_and_angle_between_vectors ⟨1, 0, 0⟩ ⟨0, 1, 0⟩
          = RotationResult.degenerate)
      ∧ (¬ np_allclose (normalise ⟨1, 0, 0⟩).1 (normalise ⟨0, 1, 0⟩).1 →
          Vec3.cross ⟨1, 0, 0⟩ ⟨0, 1, 0⟩ ≠ 0 →
        find_rotation_axis_and_angle_between_vectors ⟨1, 0, 0⟩ ⟨0, 1, 0⟩
          = RotationResult.axisAngle
              ((Vec3.cross ⟨1, 0, 0⟩ ⟨0, 1, 0⟩).divScalar
                (Vec3.magnitude (Vec3.cross ⟨1, 0, 0⟩ ⟨0, 1, 0⟩)))
              (-(1 : ℝ) * Real.arccos
                (Vec3.dot ⟨1, 0, 0⟩ ⟨0, 1, 0⟩ /
                  (Vec3.magnitude ⟨1, 0, 0⟩ * Vec3.magnitude ⟨0, 1, 0⟩))))) := by
  have h1 : (⟨1, 0, 0⟩ : Vec3) ≠ 0 := by
    intro h
    have := congrArg Vec3.x h
    norm_num at this
  have h2 : (⟨0, 1, 0⟩ : Vec3) ≠ 0 := by
    intro h
    have := congrArg Vec3.y h
    norm_num at this
  exact ⟨⟨h1, h2⟩, C7_axis_angle_between_branches ⟨1, 0, 0⟩ ⟨0, 1, 0⟩ h1 h2⟩

/-- **C10** (confirmed): `normalise` is total — on the zero vector it
returns `([0,0,0], 0.0)` instead of dividing by zero, and on every non-zero
vector it returns `(v/|v|, |v|)` with a non-zero divisor and a unit result;
consequently the detector translation emission
(`__add_detector_transformations`) is defined on a zero-length location,
emitting a translation node with magnitude `0` and vector `[0,0,0]`. -/
theorem C10_normalise_total (v : Vec3) (hv : v ≠ 0) :
    normalise (0 : Vec3) = (⟨0, 0, 0⟩, 0)
    ∧ Vec3.magnitude v ≠ 0
    ∧ normalise v = (v.divScalar (Vec3.magnitude v), Vec3.magnitude v)
    ∧ Vec3.magnitude (normalise v).1 = 1
    ∧ ∀ (u p : String) (orientation : Option IdfOrientation),
        (add_detector_transformations u p (some (0 : Vec3)) orientation).1.head?.map
          (fun t => (t.transformation_type, t.value, t.vector))
        = some ("translation", 0, ⟨0, 0, 0⟩) := by
  have hm0 : Vec3.magnitude (0 : Vec3) = 0 := (Vec3.magnitude_eq_zero_iff 0).mpr rfl
  have hzero : normalise (0 : Vec3) = (⟨0, 0, 0⟩, 0) := by
    simp [normalise, hm0]
  have hm : Vec3.magnitude v ≠ 0 := fun h => hv ((Vec3.magnitude_eq_zero_iff v).mp h)
  have hnv : normalise v = (v.divScalar (Vec3.magnitude v), Vec3.magnitude v) := by
    simp [normalise, hm]
  refine ⟨hzero, hm, hnv, ?_, ?_⟩
  · rw [hnv]
    have hsum := unit_sum_sq v hm
    show Real.sqrt _ = 1
    rw [show (v.divScalar (Vec3.magnitude v)).x = v.x / Vec3.magnitude v from rfl,
      show (v.divScalar (Vec3.magnitude v)).y = v.y / Vec3.magnitude v from rfl,
      show (v.divScalar (Vec3.magnitude v)).z = v.z / Vec3.magnitude v from rfl,
      hsum, Real.sqrt_one]
  · intro u p orientation
    cases orientation <;> simp [add_detector_transformations, hzero]

/-- Witness for C10 at `v = (3,4,0)`. -/
theorem C10_normalise_total_witness :
    (⟨3, 4, 0⟩ : Vec3) ≠ 0
    ∧ (normalise (0 : Vec3) = (⟨0, 0, 0⟩, 0)
      ∧ Vec3.magnitude (⟨3, 4, 0⟩ : Vec3) ≠ 0
      ∧ normalise ⟨3, 4, 0⟩
          = ((⟨3, 4, 0⟩ : Vec3).divScalar (Vec3.magnitude ⟨3, 4, 0⟩),
             Vec3.magnitude ⟨3, 4, 0⟩)
      ∧ Vec3.magnitude (normalise ⟨3, 4, 0⟩).1 = 1
      ∧ ∀ (u p : String) (orientation : Option IdfOrientation),
          (add_detector_transformations u p (some (0 : Vec3)) orientation).1.head?.map
            (fun t => (t.transformation_type, t.value, t.vector))
          = some ("translation", 0, ⟨0, 0, 0⟩)) := by
  have h1 : (⟨3, 4, 0⟩ : Vec3) ≠ 0 := by
    intro h
    have := congrArg Vec3.x h
    norm_num at this
  exact ⟨h1, C10_normalise_total ⟨3, 4, 0⟩ h1⟩

/-- Length of the concatenation of equal-length blocks. -/
theorem flatten_uniform_length {α : Type} (ls : List (List α)) (c : ℕ)
    (h : ∀ l ∈ ls, l.length = c) : ls.flatten.length = ls.length * c := by
  induction ls with
  | nil => simp
  | cons l rest ih =>
    simp only [List.flatten_cons, List.length_append, List.length_cons]
    rw [h l (List.mem_cons_self _ _), ih (fun l' hl' => h l' (List.mem_cons_of_mem _ hl'))]
    ring

/-- The `k`-th block of a concatenation of equal-length blocks. -/
theorem flatten_uniform_slice {α : Type} (ls : List (List α)) (c : ℕ)
    (h : ∀ l ∈ ls, l.length = c) (k : ℕ) (hk : k < ls.length) :
    (ls.flatten.drop (k * c)).take c = ls[k] := by
  induction ls generalizing k with
  | nil => simp at hk
  | cons l rest ih =>
    have hl : l.length = c := h l (List.mem_cons_self _ _)
    cases k with
    | zero =>
      simp only [Nat.zero_mul, List.drop_zero, List.flatten_cons]
      rw [← hl, List.take_left]
      simp
    | succ k =>
      simp only [List.flatten_cons]
      have hdrop : (l ++ rest.flatten).drop ((k + 1) * c) = rest.flatten.drop (k * c) := by
        rw [show (k + 1) * c = l.length + k * c by rw [hl]; ring]
        rw [← List.drop_drop, List.drop_left]
      rw [hdrop]
      have := ih (fun l' hl' => h l' (List.mem_cons_of_mem _ hl')) k
        (by simpa using Nat.lt_of_succ_lt_succ (by simpa using hk))
      rw [this]
      simp

/-- Closed form of the replication fold: starting from filled prefixes whose
lengths match the insertion cursors, the fold appends one translated copy of
the pixel mesh per offset, with face entries shifted by the winding-order
cursor plus `k * w` and winding-order entries shifted by the vertex cursor
plus `k * v` for the `k`-th copy. -/
theorem replicate_fold_closed (pixel : GeomData) :
    ∀ (offsets : List Vec3) (g : GeomData) (ni : NextIndices),
      ni.vertex = g.vertices.length → ni.face = g.faces.length →
      ni.winding_order = g.winding_order.length →
      (offsets.foldl
        (fun (acc : GeomData × NextIndices) off =>
          accumulate_geometry_in_prealloc_arrays acc.1 acc.2
            (pixel.vertices.map (fun v => v + off)) pixel.faces pixel.winding_order)
        (g, ni)).1
      = ⟨g.vertices ++ (offsets.map (fun o => pixel.vertices.map (fun v => v + o))).flatten,
         g.faces ++ ((List.range offsets.length).map
            (fun k => pixel.faces.map
              (fun f => f + (ni.winding_order + k * pixel.winding_order.length)))).flatten,
         g.winding_order ++ ((List.range offsets.length).map
            (fun k => pixel.winding_order.map
              (fun wi => wi + (ni.vertex + k * pixel.vertices.length)))).flatten⟩ := by
  intro offsets
  induction offsets with
  | nil =>
    intro g ni h1 h2 h3
    simp [GeomData.mk.injEq]
  | cons o rest ih =>
    intro g ni h1 h2 h3
    have hstep : (accumulate_geometry_in_prealloc_arrays g ni
        (pixel.vertices.map (fun v => v + o)) pixel.faces pixel.winding_order)
      = (⟨g.vertices ++ pixel.vertices.map (fun v => v + o),
          g.faces ++ pixel.faces.map (fun f => f + ni.winding_order),
          g.winding_order ++ pixel.winding_order.map (fun wi => wi + ni.vertex)⟩,
         ⟨ni.vertex + (pixel.vertices.map (fun v => v + o)).length,
          ni.face + pixel.faces.length,
          ni.winding_order + pixel.winding_order.length⟩) := rfl
    have hrec := ih
      ⟨g.vertices ++ pixel.vertices.map (fun v => v + o),
       g.faces ++ pixel.faces.map (fun f => f + ni.winding_order),
       g.winding_order ++ pixel.winding_order.map (fun wi => wi + ni.vertex)⟩
      ⟨ni.vertex + (pixel.vertices.map (fun v => v + o)).length,
       ni.face + pixel.faces.length,
       ni.winding_order + pixel.winding_order.length⟩
      (by simp [h1]) (by simp [h2]) (by simp [h3])
    simp only [List.foldl_cons, hstep, hrec]
    simp only [GeomData.mk.injEq]
    refine ⟨?_, ?_, ?_⟩
    · simp [List.append_assoc]
    · rw [List.length_cons, List.range_succ_eq_map]
      simp only [List.map_cons, List.map_map, List.flatten_cons, List.append_assoc]
      congr 2
      · simp
      · refine congrArg List.flatten (List.map_congr_left (fun k hk => ?_))
        simp only [Function.comp_apply]
        refine List.map_congr_left (fun f hf => ?_)
        rw [Nat.succ_eq_add_one]
        ring
    · rw [List.length_cons, List.range_succ_eq_map]
      simp only [List.map_cons, List.map_map, List.flatten_cons, List.append_assoc,
        List.length_map]
      congr 2
      · simp
      · refine congrArg List.flatten (List.map_congr_left (fun k hk => ?_))
        simp only [Function.comp_apply, List.length_map]
        refine List.map_congr_left (fun wi hwi => ?_)
        rw [Nat.succ_eq_add_one]
        ring

/-- **C5** (confirmed): replicating a pixel mesh of `v` vertices, `f` faces
and winding-order length `w` across `n` offsets yields exactly `n*v`
vertices, `n*f` faces and `n*w` winding-order entries, where the `k`-th
copy's vertices are the pixel vertices translated by the `k`-th offset, its
face entries are the pixel face entries offset by exactly `k*w`, and its
winding-order entries are the pixel winding-order entries re-based by the
cumulative vertex count `k*v`. -/
theorem C5_pixel_replication_scaling (pixel : GeomData) (offsets : List Vec3) :
    (replicate_pixel_shape pixel offsets).vertices.length
        = offsets.length * pixel.vertices.length
    ∧ (replicate_pixel_shape pixel offsets).faces.length
        = offsets.length * pixel.faces.length
    ∧ (replicate_pixel_shape pixel offsets).winding_order.length
        = offsets.length * pixel.winding_order.length
    ∧ ∀ k, k < offsets.length →
        (((replicate_pixel_shape pixel offsets).vertices.drop
            (k * pixel.vertices.length)).take pixel.vertices.length
          = pixel.vertices.map (fun v => v + offsets.getD k ⟨0, 0, 0⟩))
        ∧ (((replicate_pixel_shape pixel offsets).faces.drop
            (k * pixel.faces.length)).take pixel.faces.length
          = pixel.faces.map (fun f => f + k * pixel.winding_order.length))
        ∧ (((replicate_pixel_shape pixel offsets).winding_order.drop
            (k * pixel.winding_order.length)).take pixel.winding_order.length
          = pixel.winding_order.map (fun wi => wi + k * pixel.vertices.length)) := by
  have hcl := replicate_fold_closed pixel offsets ⟨[], [], []⟩ ⟨0, 0, 0⟩ rfl rfl rfl
  simp only [List.nil_append, Nat.zero_add] at hcl
  have hrepl : replicate_pixel_shape pixel offsets
      = ⟨(offsets.map (fun o => pixel.vertices.map (fun v => v + o))).flatten,
         ((List.range offsets.length).map
            (fun k => pixel.faces.map (fun f => f + k * pixel.winding_order.length))).flatten,
         ((List.range offsets.length).map
            (fun k => pixel.winding_order.map
              (fun wi => wi + k * pixel.vertices.length))).flatten⟩ := hcl
  have hv : ∀ l ∈ offsets.map (fun o => pixel.vertices.map (fun v => v + o)),
      l.length = pixel.vertices.length := by
    intro l hl
    obtain ⟨o, _, rfl⟩ := List.mem_map.mp hl
    simp
  have hf : ∀ l ∈ (List.range offsets.length).map
      (fun k => pixel.faces.map (fun f => f + k * pixel.winding_order.length)),
      l.length = pixel.faces.length := by
    intro l hl
    obtain ⟨k, _, rfl⟩ := List.mem_map.mp hl
    simp
  have hw : ∀ l ∈ (List.range offsets.length).map
      (fun k => pixel.winding_order.map (fun wi => wi + k * pixel.vertices.length)),
      l.length = pixel.winding_order.length := by
    intro l hl
    obtain ⟨k, _, rfl⟩ := List.mem_map.mp hl
    simp
  refine ⟨?_, ?_, ?_, ?_⟩
  · rw [hrepl]
    show ((offsets.map (fun o => pixel.vertices.map (fun v => v + o))).flatten).length = _
    rw [flatten_uniform_length _ _ hv]
    simp
  · rw [hrepl]
    show (((List.range offsets.length).map
        (fun k => pixel.faces.map (fun f => f + k * pixel.winding_order.length))).flatten).length = _
    rw [flatten_uniform_length _ _ hf]
    simp
  · rw [hrepl]
    show (((List.range offsets.length).map
        (fun k => pixel.winding_order.map
          (fun wi => wi + k * pixel.vertices.length))).flatten).length = _
    rw [flatten_uniform_length _ _ hw]
    simp
  · intro k hk
    refine ⟨?_, ?_, ?_⟩
    · have hs := flatten_uniform_slice _ _ hv k (by simpa using hk)
      simp only [hrepl]
      rw [hs, List.getElem_map, List.getD_eq_getElem offsets ⟨0, 0, 0⟩ hk]
    · have hs := flatten_uniform_slice _ _ hf k (by simpa using hk)
      simp only [hrepl]
      rw [hs, List.getElem_map, List.getElem_range]
    · have hs := flatten_uniform_slice _ _ hw k (by simpa using hk)
      simp only [hrepl]
      rw [hs, List.getElem_map, List.getElem_range]

/-- Witness for C5 at a concrete two-vertex pixel and two offsets, copy
`k = 1`. -/
theorem C5_pixel_replication_scaling_witness :
    1 < w5_offsets.length
    ∧ ((((replicate_pixel_shape w5_pixel w5_offsets).vertices.drop
          (1 * w5_pixel.vertices.length)).take w5_pixel.vertices.length
        = w5_pixel.vertices.map (fun v => v + w5_offsets.getD 1 ⟨0, 0, 0⟩))
      ∧ (((replicate_pixel_shape w5_pixel w5_offsets).faces.drop
          (1 * w5_pixel.faces.length)).take w5_pixel.faces.length
        = w5_pixel.faces.map (fun f => f + 1 * w5_pixel.winding_order.length))
      ∧ (((replicate_pixel_shape w5_pixel w5_offsets).winding_order.drop
          (1 * w5_pixel.winding_order.length)).take w5_pixel.winding_order.length
        = w5_pixel.winding_order.map (fun wi => wi + 1 * w5_pixel.vertices.length))) :=
  ⟨by decide, (C5_pixel_replication_scaling w5_pixel w5_offsets).2.2.2 1 (by decide)⟩

/-- **C6** (confirmed): writing `vertices=[[0,0,0],[1,0,0],[0,1,0]]`,
`faces=[0]`, `winding_order=[0,1,2]` produces a 1-face triangle file: the
first line is `OFF`, the non-comment lines are the vertex/face/edge count
line, three vertex lines and then exactly one face line starting with its
vertex count, and re-reading the file reproduces the same three vertices
and the single face with vertex indices `[0,1,2]` (the parsed face row
keeps its leading vertex count `3`). -/
theorem C6_off_round_trip :
    write_off_file [(0, 0, 0), (1, 0, 0), (0, 1, 0)] [0] [0, 1, 2]
      = ["OFF", "# NVertices NFaces NEdges", "3 0 0", "# Vertices",
         "0.000000 0.000000 0.000000", "1.000000 0.000000 0.000000",
         "0.000000 1.000000 0.000000", "# Faces", "3 0 1 2"]
    ∧ (write_off_file [(0, 0, 0), (1, 0, 0), (0, 1, 0)] [0] [0, 1, 2]).filter
        (fun l => ! off_line_skipped l)
      = ["OFF", "3 0 0", "0.000000 0.000000 0.000000", "1.000000 0.000000 0.000000",
         "0.000000 1.000000 0.000000", "3 0 1 2"]
    ∧ parse_off_file (write_off_file [(0, 0, 0), (1, 0, 0), (0, 1, 0)] [0] [0, 1, 2])
      = some ([(0, 0, 0), (1, 0, 0), (0, 1, 0)], [[3, 0, 1, 2]])
    ∧ [[(3 : ℤ), 0, 1, 2]].map (List.drop 1) = [[0, 1, 2]] := by
  refine ⟨?_, ?_, ?_, ?_⟩ <;> decide

/-- Membership in the expansion of `range(a, b+1)`: both endpoints
included. -/
theorem int_range_mem (a b x : ℤ) : x ∈ int_range a (b + 1) ↔ a ≤ x ∧ x ≤ b := by
  unfold int_range
  simp only [List.mem_map, List.mem_range]
  constructor
  · rintro ⟨i, hi, hix⟩
    omega
  · rintro ⟨h1, h2⟩
    exact ⟨(x - a).toNat, by omega, by omega⟩

/-- A well-formed `<id>` element expands without an error. -/
theorem expand_id_elem_wf (idname : String) (e : IdfIdElem) (h : idElemWf e) :
    expand_id_elem idname e = Except.ok (expand_id_elem_ok e) := by
  rcases h with ⟨s, en, hs, hen⟩ | ⟨hs, v, hv⟩
  · simp [expand_id_elem, expand_id_elem_ok, hs, hen]
  · simp [expand_id_elem, expand_id_elem_ok, hs, hv]

/-- The inner id-element fold of `__get_id_list` on well-formed elements. -/
theorem id_elems_foldlM (idname : String) (ids : List IdfIdElem)
    (h : ∀ e ∈ ids, idElemWf e) (acc : List ℤ) :
    ids.foldlM (fun acc e => (expand_id_elem idname e).map (fun l => acc ++ l)) acc
      = Except.ok (acc ++ ids.flatMap expand_id_elem_ok) := by
  induction ids generalizing acc with
  | nil =>
    rw [List.flatMap_nil, List.append_nil]
    rfl
  | cons e rest ih =>
    have he := expand_id_elem_wf idname e (h e (List.mem_cons_self _ _))
    have hstep : (e :: rest).foldlM
          (fun acc e => (expand_id_elem idname e).map (fun l => acc ++ l)) acc
        = rest.foldlM (fun acc e => (expand_id_elem idname e).map (fun l => acc ++ l))
            (acc ++ expand_id_elem_ok e) := by
      rw [List.foldlM_cons, he]
      rfl
    rw [hstep, ih (fun e' he' => h e' (List.mem_cons_of_mem _ he'))]
    rw [List.flatMap_cons, ← List.append_assoc]

/-- The outer idlist fold of `__get_id_list` on well-formed lists. -/
theorem id_lists_foldlM (idname : String) (ls : List IdfIdList)
    (h : ∀ l ∈ ls, ∀ e ∈ l.ids, idElemWf e) (acc : List ℤ) :
    ls.foldlM (fun acc l =>
        l.ids.foldlM (fun acc e => (expand_id_elem idname e).map (fun x => acc ++ x)) acc) acc
      = Except.ok (acc ++ ls.flatMap (fun l => l.ids.flatMap expand_id_elem_ok)) := by
  induction ls generalizing acc with
  | nil =>
    rw [List.flatMap_nil, List.append_nil]
    rfl
  | cons l rest ih =>
    have hstep : (l :: rest).foldlM (fun acc l =>
          l.ids.foldlM (fun acc e => (expand_id_elem idname e).map (fun x => acc ++ x)) acc) acc
        = rest.foldlM (fun acc l =>
            l.ids.foldlM (fun acc e => (expand_id_elem idname e).map (fun x => acc ++ x)) acc)
            (acc ++ l.ids.flatMap expand_id_elem_ok) := by
      rw [List.foldlM_cons, id_elems_foldlM idname l.ids (h l (List.mem_cons_self _ _))]
      rfl
    rw [hstep, ih (fun l' hl' => h l' (List.mem_cons_of_mem _ hl'))]
    rw [List.flatMap_cons, ← List.append_assoc]

/-- **C8** (amended): `__get_id_list` expands every `<idlist>` whose
`idname` matches: `start`/`end` ranges inclusive of both endpoints and
explicit `val` entries, concatenated in declaration order; when the
referenced idlist name is absent from the document it returns an empty id
list (the `Could not find IDs` failure fires only for an `<id>` element of
a matching idlist that has neither `start` nor `val`). -/
theorem C8_amended_id_list_expansion (doc : IdfDocument) (idname : String)
    (hwf : ∀ l ∈ doc.idlists, l.idname = idname → ∀ e ∈ l.ids, idElemWf e) :
    get_id_list doc idname
      = Except.ok ((doc.idlists.filter (fun l => l.idname = idname)).flatMap
          (fun l => l.ids.flatMap expand_id_elem_ok))
    ∧ (∀ a b x : ℤ, x ∈ int_range a (b + 1) ↔ a ≤ x ∧ x ≤ b)
    ∧ ((∀ l ∈ doc.idlists, l.idname ≠ idname) → get_id_list doc idname = Except.ok []) := by
  refine ⟨?_, fun a b x => int_range_mem a b x, ?_⟩
  · unfold get_id_list
    have hfil : ∀ l ∈ doc.idlists.filter (fun l => l.idname = idname),
        ∀ e ∈ l.ids, idElemWf e := by
      intro l hl
      have hmem := List.mem_filter.mp hl
      exact hwf l hmem.1 (by simpa using hmem.2)
    rw [id_lists_foldlM idname _ hfil []]
    rw [List.nil_append]
  · intro habs
    unfold get_id_list
    have hfil : doc.idlists.filter (fun l => l.idname = idname) = [] := by
      rw [List.filter_eq_nil_iff]
      intro l hl
      simpa using habs l hl
    rw [hfil]
    rfl

/-- Witness for C8 at a concrete document with one idlist holding a range
and a val element. -/
theorem C8_amended_id_list_expansion_witness :
    (∀ l ∈ ([⟨"det-ids", [⟨some 4, some 6, none⟩, ⟨none, none, some 9⟩]⟩] : List IdfIdList),
      l.idname = "det-ids" → ∀ e ∈ l.ids, idElemWf e)
    ∧ (get_id_list ⟨[], [], [⟨"det-ids", [⟨some 4, some 6, none⟩, ⟨none, none, some 9⟩]⟩]⟩
          "det-ids"
        = Except.ok ((([⟨"det-ids", [⟨some 4, some 6, none⟩, ⟨none, none, some 9⟩]⟩] :
              List IdfIdList).filter (fun l => l.idname = "det-ids")).flatMap
            (fun l => l.ids.flatMap expand_id_elem_ok))
      ∧ (∀ a b x : ℤ, x ∈ int_range a (b + 1) ↔ a ≤ x ∧ x ≤ b)
      ∧ ((∀ l ∈ ([⟨"det-ids", [⟨some 4, some 6, none⟩, ⟨none, none, some 9⟩]⟩] :
            List IdfIdList), l.idname ≠ "det-ids") →
          get_id_list ⟨[], [], [⟨"det-ids", [⟨some 4, some 6, none⟩, ⟨none, none, some 9⟩]⟩]⟩
            "det-ids" = Except.ok [])) := by
  have hwf : ∀ l ∈ ([⟨"det-ids", [⟨some 4, some 6, none⟩, ⟨none, none, some 9⟩]⟩] :
      List IdfIdList), l.idname = "det-ids" → ∀ e ∈ l.ids, idElemWf e := by
    intro l hl _ e he
    simp only [List.mem_singleton] at hl
    subst hl
    simp only [List.mem_cons, List.mem_singleton] at he
    rcases he with rfl | rfl | h
    · exact Or.inl ⟨4, 6, rfl, rfl⟩
    · exact Or.inr ⟨rfl, 9, rfl⟩
    · cases h
  exact ⟨hwf, C8_amended_id_list_expansion
    ⟨[], [], [⟨"det-ids", [⟨some 4, some 6, none⟩, ⟨none, none, some 9⟩]⟩]⟩ "det-ids" hwf⟩

/-- **C8** (counterexample): querying an idlist name absent from the
document returns an empty list, not a failure. -/
theorem C8_counterexample :
    get_id_list ⟨[], [], [⟨"a", [⟨some 1, some 3, none⟩]⟩]⟩ "b" = Except.ok []
    ∧ (get_id_list ⟨[], [], [⟨"a", [⟨some 1, some 3, none⟩]⟩]⟩ "b").isOk = true :=
  ⟨rfl, rfl⟩

/-- **C9** (counterexample): on a document with no type marked
`is="detector"`, `get_detectors` returns an empty detector list and does
not fail. -/
theorem C9_counterexample :
    get_detectors ⟨[⟨"some-type", some "Source", IdfGeom.noGeom, []⟩], [], []⟩
      = Except.ok []
    ∧ (get_detectors ⟨[⟨"some-type", some "Source", IdfGeom.noGeom, []⟩], [], []⟩).isOk
      = true :=
  ⟨rfl, rfl⟩

/-- **C9** (amended): for every document without a pixel-shape-bearing type
(no `type` element with `is="detector"`), `get_detectors` resolves to the
empty detector list instead of raising: the old parser has no
`NotFoundInIdfError` path for this case. -/
theorem C9_amended_no_detector_type_gives_empty (doc : IdfDocument)
    (h : ∀ t ∈ doc.types, t.is_attr ≠ some "detector") :
    get_detectors doc = Except.ok [] := by
  have hfil : doc.types.filter (fun t => t.is_attr = some "detector") = [] := by
    rw [List.filter_eq_nil_iff]
    intro t ht
    simpa using h t ht
  unfold get_detectors get_pixel_names_and_shapes
  rw [hfil]
  rfl

/-- Witness for C9 at a concrete one-type document. -/
theorem C9_amended_no_detector_type_gives_empty_witness :
    (∀ t ∈ ([⟨"some-type", some "Source", IdfGeom.noGeom, []⟩] : List IdfType),
      t.is_attr ≠ some "detector")
    ∧ get_detectors ⟨[⟨"some-type", some "Source", IdfGeom.noGeom, []⟩], [], []⟩
      = Except.ok [] := by
  have h : ∀ t ∈ ([⟨"some-type", some "Source", IdfGeom.noGeom, []⟩] : List IdfType),
      t.is_attr ≠ some "detector" := by
    intro t ht
    simp only [List.mem_singleton] at ht
    subst ht
    simp
  exact ⟨h, C9_amended_no_detector_type_gives_empty
    ⟨[⟨"some-type", some "Source", IdfGeom.noGeom, []⟩], [], []⟩ h⟩

/-- `contains` distributes over list concatenation. -/
theorem contains_append_strings (l₁ l₂ : List String) (a : String) :
    (l₁ ++ l₂).contains a = (l₁.contains a || l₂.contains a) := by
  induction l₁ with
  | nil => simp
  | cons b r ih => simp [List.contains_cons, ih, Bool.or_assoc]

/-- A member of a string list is contained in it. -/
theorem contains_of_mem_strings {l : List String} {a : String} (h : a ∈ l) :
    l.contains a = true := by
  simpa using h

/-- A non-member of a string list is not contained in it. -/
theorem contains_false_of_not_mem {l : List String} {a : String} (h : a ∉ l) :
    l.contains a = false := by
  simpa using h

/-- A key absent from the key set looks up to `none`. -/
theorem lookup_none_of_fresh {α : Type} (l : List (String × α)) (k : String)
    (h : (l.map Prod.fst).contains k = false) : l.lookup k = none := by
  induction l with
  | nil => rfl
  | cons p r ih =>
    simp only [List.map_cons, List.contains_cons, Bool.or_eq_false_iff] at h
    have hk : (k == p.1) = false := by
      cases hkp : k == p.1
      · rfl
      · exact absurd hkp (by simp [h.1])
    simp [List.lookup, hk, ih h.2]

/-- Appending a binding for a fresh key makes it look up to the new value. -/
theorem lookup_append_fresh {α : Type} (l : List (String × α)) (k : String) (v : α)
    (h : (l.map Prod.fst).contains k = false) : (l ++ [(k, v)]).lookup k = some v := by
  induction l with
  | nil => simp [List.lookup]
  | cons p r ih =>
    simp only [List.map_cons, List.contains_cons, Bool.or_eq_false_iff] at h
    have hk : (k == p.1) = false := by
      cases hkp : k == p.1
      · rfl
      · exact absurd hkp (by simp [h.1])
    simp [List.lookup, hk, ih h.2]

/-- A successful lookup means the key is in the key set. -/
theorem contains_of_lookup_some {α : Type} {l : List (String × α)} {k : String} {v : α}
    (h : l.lookup k = some v) : (l.map Prod.fst).contains k = true := by
  induction l with
  | nil => simp [List.lookup] at h
  | cons p r ih =>
    cases hkp : k == p.1
    · simp only [List.lookup, hkp] at h
      rw [List.map_cons, List.contains_cons, ih h, Bool.or_true]
    · rw [List.map_cons, List.contains_cons, hkp, Bool.true_or]

/-- On a fresh key, `upsert` appends the binding. -/
theorem upsert_fresh {α : Type} (l : List (String × α)) (k : String) (v : α)
    (h : (l.map Prod.fst).contains k = false) : upsert l k v = l ++ [(k, v)] := by
  unfold upsert
  rw [h]
  simp

/-- A one-element pixels list passes the `__all_elements_equal` check. -/
theorem all_elements_equal_singleton (a : String) :
    all_elements_equal [a] = Except.ok true := by
  simp [all_elements_equal]

/-- On a resolved sub-component, `collate_sub_data` returns its offsets and
the single pixel type name. -/
theorem collate_sub_data_of_chainSub {pixel : String} {st : CollateState} {p : String}
    {offs : List Vec3} (h : ChainSub pixel st p offs) :
    collate_sub_data [pixel] st p = (offs, [pixel]) := by
  rcases h with ⟨hp, ho⟩ | ⟨hne, hlo, hlp⟩
  · subst hp
    subst ho
    simp [collate_sub_data]
  · have hc : (([pixel] : List String).contains p) = false :=
      contains_false_of_not_mem (by simp [hne])
    unfold collate_sub_data
    rw [hc]
    simp [hlo, hlp]

/-- A resolved sub-component name is in `component_names_offsets_known`. -/
theorem offsets_known_of_chainSub {pixel : String} {st : CollateState} {p : String}
    {offs : List Vec3} (h : ChainSub pixel st p offs) :
    offsets_known [pixel] st p = true := by
  rcases h with ⟨hp, _⟩ | ⟨_, hlo, _⟩
  · subst hp
    simp [offsets_known]
  · unfold offsets_known
    rw [contains_of_lookup_some hlo, Bool.or_true]

/-- Resolving a non-top-level chain component records the cartesian
composition of its sub-component offsets with its location list. -/
theorem collate_component_chain_step {pixel : String} {tl : List String}
    {st : CollateState} {p : String} {offs : List Vec3}
    (hsub : ChainSub pixel st p offs)
    (n : String) (L : List Vec3)
    (hn_tl : tl.contains n = false)
    (hnOff : (st.knownOffsets.map Prod.fst).contains n = false)
    (hnPix : (st.knownPixels.map Prod.fst).contains n = false) :
    collate_component [pixel] tl st ⟨n, [p], [L], none, []⟩
      = Except.ok ⟨st.knownOffsets ++ [(n, calculate_new_offsets offs L)],
                   st.knownPixels ++ [(n, [pixel])],
                   st.detectors⟩ := by
  unfold collate_component
  simp only [offsets_known_of_chainSub hsub, collate_sub_data_of_chainSub hsub,
    List.all_cons, List.all_nil, Bool.and_true, if_true,
    lookup_none_of_fresh _ _ hnPix, Option.getD_none, List.nil_append,
    List.map_cons, List.map_nil, List.flatMap_cons, List.flatMap_nil, List.append_nil,
    all_elements_equal_singleton, hn_tl,
    List.zip_cons_cons, List.zip_nil_right,
    upsert_fresh _ _ _ hnOff, upsert_fresh _ _ _ hnPix]
  simp

/-- Resolving the top-level chain component appends a detector whose offsets
are exactly its sub-component offsets and whose location is its first
location entry. -/
theorem collate_component_top_step {pixel : String} {tl : List String}
    {st : CollateState} {p : String} {offs : List Vec3}
    (hsub : ChainSub pixel st p offs)
    (t : String) (Lt : List Vec3)
    (ht_tl : tl.contains t = true)
    (htOff : (st.knownOffsets.map Prod.fst).contains t = false)
    (htPix : (st.knownPixels.map Prod.fst).contains t = false) :
    collate_component [pixel] tl st ⟨t, [p], [Lt], none, []⟩
      = Except.ok ⟨st.knownOffsets ++ [(t, offs)],
                   st.knownPixels ++ [(t, [pixel])],
                   st.detectors ++ [⟨t, offs, pixel, Lt.head?⟩]⟩ := by
  unfold collate_component
  simp only [offsets_known_of_chainSub hsub, collate_sub_data_of_chainSub hsub,
    List.all_cons, List.all_nil, Bool.and_true, if_true,
    lookup_none_of_fresh _ _ htPix, Option.getD_none, List.nil_append,
    List.map_cons, List.map_nil, List.flatMap_cons, List.flatMap_nil, List.append_nil,
    all_elements_equal_singleton, ht_tl,
    List.flatten_cons, List.flatten_nil,
    upsert_fresh _ _ _ htOff, upsert_fresh _ _ _ htPix]
  simp

/-- The component names of a chain are the chain entry names. -/
theorem chain_components_names (p : String) (es : List (String × List Vec3)) :
    (chain_components p es).map (fun c => c.name) = es.map Prod.fst := by
  induction es generalizing p with
  | nil => rfl
  | cons e rest ih =>
    obtain ⟨n, L⟩ := e
    simp [chain_components, ih]

/-- A chain splits at any point, the second part hanging off the last name
of the first. -/
theorem chain_components_append (p : String) (es₁ es₂ : List (String × List Vec3)) :
    chain_components p (es₁ ++ es₂)
      = chain_components p es₁
        ++ chain_components ((es₁.map Prod.fst).getLastD p) es₂ := by
  induction es₁ generalizing p with
  | nil => rfl
  | cons e rest ih =>
    obtain ⟨n, L⟩ := e
    rw [show (((n, L) :: rest) ++ es₂) = ((n, L) :: (rest ++ es₂)) from rfl]
    rw [show chain_components p ((n, L) :: (rest ++ es₂))
        = (⟨n, [p], [L], none, []⟩ : IdfComponent) :: chain_components n (rest ++ es₂) from rfl]
    rw [ih]
    rw [show (((n, L) :: rest).map Prod.fst).getLastD p = (rest.map Prod.fst).getLastD n from by
      rw [List.map_cons, List.getLastD_cons]]
    rfl

/-- The keys bound along a chain are the chain entry names. -/
theorem chainBindOffs_map_fst (offs : List Vec3) (es : List (String × List Vec3)) :
    (chainBindOffs offs es).map Prod.fst = es.map Prod.fst := by
  induction es generalizing offs with
  | nil => rfl
  | cons e rest ih =>
    obtain ⟨n, L⟩ := e
    simp [chainBindOffs, ih]

/-- `__calculate_new_offsets` multiplies the offset counts. -/
theorem calculate_new_offsets_length (old_offsets new_offsets : List Vec3) :
    (calculate_new_offsets old_offsets new_offsets).length
      = new_offsets.length * old_offsets.length := by
  unfold calculate_new_offsets
  induction new_offsets with
  | nil => simp
  | cons v rest ih =>
    simp only [List.flatMap_cons, List.length_append, List.length_map, ih, List.length_cons]
    ring

/-- Repeated cartesian composition multiplies the offset-list lengths. -/
theorem chain_offsets_length (Ls : List (List Vec3)) :
    ∀ acc : List Vec3,
    (chain_offsets acc Ls).length = acc.length * (Ls.map List.length).prod := by
  induction Ls with
  | nil =>
    intro acc
    simp [chain_offsets]
  | cons L rest ih =>
    intro acc
    rw [show chain_offsets acc (L :: rest)
        = chain_offsets (calculate_new_offsets acc L) rest from rfl]
    rw [ih, calculate_new_offsets_length]
    simp only [List.map_cons, List.prod_cons]
    ring

/-- One pass of `__collate_detector_info` over the non-top-level part of a
chain of fresh names resolves every component, binding each name to the
cartesian composition of the offsets below it. -/
theorem collate_chain_fold (pixel : String) (tl : List String)
    (es : List (String × List Vec3)) :
    ∀ (st : CollateState) (p : String) (offs : List Vec3),
    ChainSub pixel st p offs →
    (es.map Prod.fst).Nodup →
    (∀ n ∈ es.map Prod.fst, n ≠ pixel ∧ n ∉ tl ∧
        (st.knownOffsets.map Prod.fst).contains n = false ∧
        (st.knownPixels.map Prod.fst).contains n = false) →
    (chain_components p es).foldlM (collate_component [pixel] tl) st
      = Except.ok ⟨st.knownOffsets ++ chainBindOffs offs es,
                   st.knownPixels ++ (es.map Prod.fst).map (fun m => (m, [pixel])),
                   st.detectors⟩
    ∧ ChainSub pixel
        ⟨st.knownOffsets ++ chainBindOffs offs es,
         st.knownPixels ++ (es.map Prod.fst).map (fun m => (m, [pixel])),
         st.detectors⟩
        ((es.map Prod.fst).getLastD p) (chain_offsets offs (es.map Prod.snd)) := by
  induction es with
  | nil =>
    intro st p offs hsub _ _
    constructor
    · simp only [chain_components, List.foldlM_nil, chainBindOffs, List.append_nil,
        List.map_nil]
      rfl
    · simpa [chain_offsets, chainBindOffs] using hsub
  | cons e rest ih =>
    obtain ⟨n, L⟩ := e
    intro st p offs hsub hnodup hfresh
    obtain ⟨hn_pix, hn_tl, hnOff, hnPix⟩ := hfresh n (by simp)
    have hstep := collate_component_chain_step hsub n L
      (contains_false_of_not_mem hn_tl) hnOff hnPix
    set c : List Vec3 := calculate_new_offsets offs L with hc
    set st' : CollateState :=
      ⟨st.knownOffsets ++ [(n, c)], st.knownPixels ++ [(n, [pixel])], st.detectors⟩ with hst'
    have hsub' : ChainSub pixel st' n c :=
      Or.inr ⟨hn_pix, lookup_append_fresh _ _ _ hnOff, lookup_append_fresh _ _ _ hnPix⟩
    have hnodup' : (rest.map Prod.fst).Nodup := by
      have := hnodup
      simp only [List.map_cons, List.nodup_cons] at this
      exact this.2
    have hn_rest : n ∉ rest.map Prod.fst := by
      have := hnodup
      simp only [List.map_cons, List.nodup_cons] at this
      exact this.1
    have hfresh' : ∀ m ∈ rest.map Prod.fst, m ≠ pixel ∧ m ∉ tl ∧
        (st'.knownOffsets.map Prod.fst).contains m = false ∧
        (st'.knownPixels.map Prod.fst).contains m = false := by
      intro m hm
      obtain ⟨h1, h2, h3, h4⟩ := hfresh m (by simp [hm])
      have hmn : m ≠ n := fun h => hn_rest (h ▸ hm)
      refine ⟨h1, h2, ?_, ?_⟩
      · rw [hst']
        rw [show (⟨st.knownOffsets ++ [(n, c)], st.knownPixels ++ [(n, [pixel])],
            st.detectors⟩ : CollateState).knownOffsets
          = st.knownOffsets ++ [(n, c)] from rfl]
        rw [List.map_append, contains_append_strings, h3]
        rw [contains_false_of_not_mem (by simp [hmn])]
        rfl
      · rw [hst']
        rw [show (⟨st.knownOffsets ++ [(n, c)], st.knownPixels ++ [(n, [pixel])],
            st.detectors⟩ : CollateState).knownPixels
          = st.knownPixels ++ [(n, [pixel])] from rfl]
        rw [List.map_append, contains_append_strings, h4]
        rw [contains_false_of_not_mem (by simp [hmn])]
        rfl
    have hrest := ih st' n c hsub' hnodup' hfresh'
    have hOffEq : st.knownOffsets ++ chainBindOffs offs ((n, L) :: rest)
        = st'.knownOffsets ++ chainBindOffs c rest := by
      rw [hst']
      rw [show chainBindOffs offs ((n, L) :: rest)
          = (n, calculate_new_offsets offs L) :: chainBindOffs (calculate_new_offsets offs L) rest
        from rfl]
      rw [← hc]
      simp [List.append_assoc]
    have hPixEq : st.knownPixels ++ ((((n, L) :: rest).map Prod.fst).map (fun m => (m, [pixel])))
        = st'.knownPixels ++ ((rest.map Prod.fst).map (fun m => (m, [pixel]))) := by
      rw [hst']
      simp [List.append_assoc]
    constructor
    · rw [show chain_components p ((n, L) :: rest)
          = (⟨n, [p], [L], none, []⟩ : IdfComponent) :: chain_components n rest from rfl]
      rw [List.foldlM_cons, hstep]
      rw [hOffEq, hPixEq]
      exact hrest.1
    · rw [show (((n, L) :: rest).map Prod.fst).getLastD p
          = (rest.map Prod.fst).getLastD n from by rw [List.map_cons, List.getLastD_cons]]
      rw [show chain_offsets offs (((n, L) :: rest).map Prod.snd)
          = chain_offsets c (rest.map Prod.snd) from by rw [hc]; rfl]
      rw [hOffEq, hPixEq]
      exact hrest.2

/-- One unfolding of the `while` loop of `__collate_detector_info`. -/
theorem collate_loop_succ (fuel : ℕ) (pn tl : List String) (comps : List IdfComponent)
    (st : CollateState) :
    collate_loop (fuel + 1) pn tl comps st
      = if (comps.map (fun c => c.name)).all (offsets_known pn st) then Except.ok st
        else match collate_pass pn tl comps st with
          | Except.error e => Except.error e
          | Except.ok st' => collate_loop fuel pn tl comps st' := rfl

/-- C4: resolving a component chain from the pixel type up through
`__collate_detector_info` composes offsets cartesianly via
`__calculate_new_offsets` — each child offset translated by every parent
offset — so the collated top-level detector's offsets are the chain
composition and their count is the product of the offset-list sizes along
the chain. -/
theorem C4_cartesian_offset_composition
    (pixel : String) (body : List (String × List Vec3)) (t : String) (Lt : List Vec3)
    (hnodup : (pixel :: (body.map Prod.fst ++ [t])).Nodup) :
    collate_detector_info (body.length + 2) [pixel]
        (chain_components pixel (body ++ [(t, Lt)])) [t]
      = Except.ok [⟨t, chain_offsets [⟨0, 0, 0⟩] (body.map Prod.snd), pixel, Lt.head?⟩]
    ∧ (chain_offsets [⟨0, 0, 0⟩] (body.map Prod.snd)).length
      = (body.map (fun e => e.snd.length)).prod := by
  rw [List.nodup_cons] at hnodup
  obtain ⟨hpix_not, hnd⟩ := hnodup
  rw [List.nodup_append] at hnd
  obtain ⟨hnd_body, -, hdisj⟩ := hnd
  have ht_not_body : t ∉ body.map Prod.fst := fun hmem => hdisj hmem (by simp)
  have hbody_ne_pix : ∀ n ∈ body.map Prod.fst, n ≠ pixel :=
    fun n hn h => hpix_not (List.mem_append_left _ (h ▸ hn))
  have ht_ne_pix : t ≠ pixel := fun h => hpix_not (List.mem_append_right _ (by simp [h]))
  have hbody_not_t : ∀ n ∈ body.map Prod.fst, n ∉ ([t] : List String) := by
    intro n hn hmem
    rw [List.mem_singleton] at hmem
    exact ht_not_body (hmem ▸ hn)
  obtain ⟨hfold1, hfold2⟩ := collate_chain_fold pixel [t] body ⟨[], [], []⟩ pixel [⟨0, 0, 0⟩]
    (Or.inl ⟨rfl, rfl⟩) hnd_body
    (fun n hn => ⟨hbody_ne_pix n hn, hbody_not_t n hn, rfl, rfl⟩)
  set offsF : List Vec3 := chain_offsets [⟨0, 0, 0⟩] (body.map Prod.snd) with hoffsF
  set stF : CollateState :=
    ⟨[] ++ chainBindOffs [⟨0, 0, 0⟩] body,
     [] ++ (body.map Prod.fst).map (fun m => (m, [pixel])), []⟩ with hstF
  have hOffKeysF : stF.knownOffsets.map Prod.fst = body.map Prod.fst := by
    show (([] ++ chainBindOffs [⟨0, 0, 0⟩] body).map Prod.fst) = body.map Prod.fst
    rw [List.nil_append, chainBindOffs_map_fst]
  have hPixKeysF : stF.knownPixels.map Prod.fst = body.map Prod.fst := by
    show ((([] ++ (body.map Prod.fst).map (fun m => (m, [pixel]))).map Prod.fst))
      = body.map Prod.fst
    rw [List.nil_append, List.map_map]
    simp
  have htop := collate_component_top_step hfold2 t Lt
    (show (([t] : List String).contains t) = true by simp)
    (by rw [hOffKeysF]; exact contains_false_of_not_mem ht_not_body)
    (by rw [hPixKeysF]; exact contains_false_of_not_mem ht_not_body)
  set stT : CollateState :=
    ⟨stF.knownOffsets ++ [(t, offsF)], stF.knownPixels ++ [(t, [pixel])],
     stF.detectors ++ [⟨t, offsF, pixel, Lt.head?⟩]⟩ with hstT
  have hpass : collate_pass [pixel] [t] (chain_components pixel (body ++ [(t, Lt)]))
      ⟨[], [], []⟩ = Except.ok stT := by
    unfold collate_pass
    rw [chain_components_append, List.foldlM_append, hfold1]
    rw [show (Except.ok stF : Except String CollateState) = pure stF from rfl, pure_bind]
    show List.foldlM (collate_component [pixel] [t]) stF
        (chain_components ((body.map Prod.fst).getLastD pixel) [(t, Lt)]) = Except.ok stT
    rw [show chain_components ((body.map Prod.fst).getLastD pixel) [(t, Lt)]
        = [⟨t, [(body.map Prod.fst).getLastD pixel], [Lt], none, []⟩] from rfl]
    rw [List.foldlM_cons, htop]
    rw [show (Except.ok stT : Except String CollateState) = pure stT from rfl, pure_bind]
    rfl
  have hcheck1 : ((chain_components pixel (body ++ [(t, Lt)])).map (fun c => c.name)).all
      (offsets_known [pixel] ⟨[], [], []⟩) = false := by
    rw [chain_components_names, List.all_eq_false]
    refine ⟨t, by simp, ?_⟩
    simp [offsets_known, ht_ne_pix]
  have hcheck2 : ((chain_components pixel (body ++ [(t, Lt)])).map (fun c => c.name)).all
      (offsets_known [pixel] stT) = true := by
    rw [chain_components_names, List.all_eq_true]
    intro n hn
    have hkeys : stT.knownOffsets.map Prod.fst = body.map Prod.fst ++ [t] := by
      show ((stF.knownOffsets ++ [(t, offsF)]).map Prod.fst) = body.map Prod.fst ++ [t]
      rw [List.map_append, hOffKeysF]
      rfl
    have hn' : n ∈ body.map Prod.fst ++ [t] := by simpa using hn
    unfold offsets_known
    rw [hkeys, contains_of_mem_strings hn', Bool.or_true]
  have hloop : collate_loop (body.length + 2) [pixel] [t]
      (chain_components pixel (body ++ [(t, Lt)])) ⟨[], [], []⟩ = Except.ok stT := by
    rw [show body.length + 2 = (body.length + 1) + 1 from rfl, collate_loop_succ, hcheck1]
    rw [if_neg (by simp)]
    rw [hpass]
    show collate_loop (body.length + 1) [pixel] [t]
        (chain_components pixel (body ++ [(t, Lt)])) stT = Except.ok stT
    rw [collate_loop_succ, hcheck2]
    rw [if_pos rfl]
  refine ⟨?_, ?_⟩
  · unfold collate_detector_info
    rw [hloop]
    rfl
  · rw [hoffsF, chain_offsets_length]
    simp only [List.map_map, List.length_singleton, one_mul]
    rfl

/-- Witness for C4 on a concrete pixel/tube/bank/top chain with
3 x 2 x 1 = 6 resolved offsets. -/
theorem C4_cartesian_offset_composition_witness :
    (("px" : String) :: (w4_body.map Prod.fst ++ ["top"])).Nodup
    ∧ (collate_detector_info (w4_body.length + 2) ["px"]
          (chain_components "px" (w4_body ++ [("top", w4_top_loc)])) ["top"]
        = Except.ok [⟨"top", chain_offsets [⟨0, 0, 0⟩] (w4_body.map Prod.snd), "px",
            w4_top_loc.head?⟩]
      ∧ (chain_offsets [⟨0, 0, 0⟩] (w4_body.map Prod.snd)).length
        = (w4_body.map (fun e => e.snd.length)).prod) :=
  ⟨by decide, C4_cartesian_offset_composition "px" w4_body "top" w4_top_loc (by decide)⟩

